import Mathlib

/-!
Verification of the python-workshop utility functions.

Strings of the modelled Python code are embedded as `List Char`
(Python `str` values over Unicode scalar values); machine integers are
`Int`/`Nat` (Python ints are unbounded); Python floats appearing only as
exact quotients are modelled as `ℚ`; fallible operations return
`Option`/`Except`.
-/

namespace PyWorkshop

/-- A small universe of Python runtime values, enough for the dynamic
arguments taken by `safe_div` and `normalize_emails`. `int` carries a
Python `int` (unbounded); `flt` a Python `float`, identified with its
exact rational value (rounding of inexact float results is outside this
embedding). -/
inductive PyVal : Type
  | int (n : Int)
  | flt (q : ℚ)
  | str (s : List Char)
  | bool (b : Bool)
  | none
  deriving DecidableEq, Repr

/-- `grade` from `solutions/01_basics_solutions.py`. -/
def grade (score : Int) : Char :=
  if score ≥ 90 then 'A'
  else if score ≥ 80 then 'B'
  else if score ≥ 70 then 'C'
  else if score ≥ 60 then 'D'
  else 'F'

/-- Rank of a letter grade, used to state monotonicity ('F' worst). -/
def gradeRank (c : Char) : Nat :=
  if c = 'A' then 4 else if c = 'B' then 3 else if c = 'C' then 2
  else if c = 'D' then 1 else 0

/-- Python `str.strip` whitespace test (ASCII portion: space, \t, \n,
\r, \v, \f). -/
def pyIsSpace (c : Char) : Bool :=
  c.toNat == 32 || c.toNat == 9 || c.toNat == 10 || c.toNat == 13 ||
  c.toNat == 11 || c.toNat == 12

/-- Python `str.lower` on one character (ASCII portion). -/
def pyLowerChar (c : Char) : Char :=
  if 65 ≤ c.toNat ∧ c.toNat ≤ 90 then Char.ofNat (c.toNat + 32) else c

/-- Drop the trailing run of characters satisfying `p`. -/
def dropTrail (p : Char → Bool) : List Char → List Char
  | [] => []
  | c :: r =>
    match dropTrail p r with
    | [] => if p c then [] else [c]
    | x :: xs => c :: x :: xs

/-- Python `str.strip()`: drop leading and trailing whitespace. -/
def pyStrip (s : List Char) : List Char :=
  dropTrail pyIsSpace (s.dropWhile pyIsSpace)

/-- Python `str.lower()`. -/
def pyLower (s : List Char) : List Char := s.map pyLowerChar

/-- The filter-and-map of the set comprehension in `normalize_emails`:
`{e.strip().lower() for e in emails if e and isinstance(e, str)}`.
An entry contributes iff it is a truthy (non-empty) string; it is then
stripped and lowercased. -/
def pyKeepEmail : PyVal → Option (List Char)
  | .str s => if s = [] then Option.none else some (pyLower (pyStrip s))
  | _ => Option.none

/-- `normalize_emails` from `src/data_handling/json_api.py`:
set comprehension (distinct values) followed by `sorted`. -/
def normalize_emails (emails : List PyVal) : List (List Char) :=
  ((emails.filterMap pyKeepEmail).dedup).insertionSort (· ≤ ·)

/-- The classic `User` class of `src/oop/models.py` (data fields). -/
structure User : Type where
  id : Int
  name : List Char
  email : List Char
  active : Bool
  deriving DecidableEq, Repr

/-- `User.__eq__`: two `User`s compare equal iff their `id`s match. -/
def User.eqPy (a b : User) : Bool := a.id == b.id

/-- The dataclass `UserDC` of `src/oop/models.py` (data fields;
`fingerprint` is a non-init field defaulting to `None`). -/
structure UserDC : Type where
  id : Int
  name : List Char
  email : List Char
  active : Bool := true
  fingerprint : Option (List Char) := Option.none
  deriving DecidableEq, Repr

/-- `UserDC.__eq__` as generated by `@dataclass(eq=True)`: the tuples of
all compared fields (`id`, `name`, `email`, `active`, `fingerprint`) must
agree. -/
def UserDC.eqPy (a b : UserDC) : Bool :=
  a.id == b.id && a.name == b.name && a.email == b.email &&
  a.active == b.active && a.fingerprint == b.fingerprint

/-- Python `str.split(sep)` for a one-character separator: `split` on an
empty string yields `[""]`, and every occurrence of `sep` starts a new
field. -/
def pySplit (sep : Char) : List Char → List (List Char)
  | [] => [[]]
  | c :: rest =>
    if c = sep then [] :: pySplit sep rest
    else
      match pySplit sep rest with
      | [] => [[c]]
      | p :: ps => (c :: p) :: ps

/-- `User.domain`: `self.email.split("@")[-1]`. -/
def User.domain (u : User) : List Char := (pySplit '@' u.email).getLastD []

/-- `UserDC.domain`: `self.email.split("@")[-1]`. -/
def UserDC.domain (u : UserDC) : List Char := (pySplit '@' u.email).getLastD []

/-- The loop body of `dedupe_users_by_id`, with the `seen` set of ids
made explicit. -/
def dedupeAux (seen : List Int) : List User → List User
  | [] => []
  | u :: rest =>
    if u.id ∈ seen then dedupeAux seen rest
    else u :: dedupeAux (u.id :: seen) rest

/-- `dedupe_users_by_id` from `src/oop/models.py`. -/
def dedupe_users_by_id (users : List User) : List User := dedupeAux [] users

/-- Reference formulation of the spec sentence "preserves the order of
first occurrence and drops later records sharing the same id": keep each
record and delete all later records with its id. -/
def keepFirstById : List User → List User
  | [] => []
  | u :: rest => u :: keepFirstById (rest.filter (fun v => v.id ≠ u.id))
termination_by l => l.length
decreasing_by
  simp only [List.length_cons]
  exact Nat.lt_succ_of_le (List.length_filter_le _ _)

/-! ### JSON data model

The values handled by `json.dumps` / `json.loads` in
`src/data_handling/json_api.py`, restricted to what the workshop scripts
produce: `None`, booleans, integers, strings, lists and string-keyed
dicts.  (Floating-point numbers are outside this embedding; the parser
rejects fraction/exponent forms rather than producing floats.) -/

inductive Json : Type
  | null
  | bool (b : Bool)
  | num (n : Int)
  | str (s : List Char)
  | arr (xs : List Json)
  | obj (kvs : List (List Char × Json))

instance : Nonempty Json := ⟨Json.null⟩

/-- Decimal digit to character. -/
def digitChar (d : Nat) : Char :=
  if d = 0 then '0' else if d = 1 then '1' else if d = 2 then '2'
  else if d = 3 then '3' else if d = 4 then '4' else if d = 5 then '5'
  else if d = 6 then '6' else if d = 7 then '7' else if d = 8 then '8' else '9'

/-- Little-endian decimal digits, with explicit recursion fuel (the
first argument; `n` digits always fit in `n` fuel). -/
def natDigitsRevAux : Nat → Nat → List Char
  | _, 0 => []
  | 0, _ + 1 => []
  | f + 1, n + 1 => digitChar ((n + 1) % 10) :: natDigitsRevAux f ((n + 1) / 10)

/-- Little-endian decimal digits of a positive number (empty for 0). -/
def natDigitsRev (n : Nat) : List Char := natDigitsRevAux n n

/-- Decimal notation of a natural number, as `repr`/`json.dumps` print it. -/
def natToDigits (n : Nat) : List Char :=
  if n = 0 then ['0'] else (natDigitsRev n).reverse

/-- Decimal notation of an integer. -/
def intToDigits (n : Int) : List Char :=
  if n < 0 then '-' :: natToDigits n.natAbs else natToDigits n.toNat

/-- Hexadecimal digit to character (lowercase, as `json.dumps` emits). -/
def hexDigitChar (d : Nat) : Char :=
  if d = 0 then '0' else if d = 1 then '1' else if d = 2 then '2'
  else if d = 3 then '3' else if d = 4 then '4' else if d = 5 then '5'
  else if d = 6 then '6' else if d = 7 then '7' else if d = 8 then '8'
  else if d = 9 then '9' else if d = 10 then 'a' else if d = 11 then 'b'
  else if d = 12 then 'c' else if d = 13 then 'd' else if d = 14 then 'e' else 'f'

/-- Four-digit hexadecimal form used in `\uXXXX` escapes. -/
def hex4 (n : Nat) : List Char :=
  [hexDigitChar (n / 4096 % 16), hexDigitChar (n / 256 % 16),
   hexDigitChar (n / 16 % 16), hexDigitChar (n % 16)]

/-- `json.dumps` escaping of one character with the default
`ensure_ascii=True`: short escapes for the common controls, `\uXXXX`
(with surrogate pairs beyond the BMP) for other controls and all
non-ASCII, the character itself otherwise. -/
def escapeChar (c : Char) : List Char :=
  if c = '"' then ['\\', '"']
  else if c = '\\' then ['\\', '\\']
  else if c.toNat = 10 then ['\\', 'n']
  else if c.toNat = 9 then ['\\', 't']
  else if c.toNat = 13 then ['\\', 'r']
  else if c.toNat = 8 then ['\\', 'b']
  else if c.toNat = 12 then ['\\', 'f']
  else if c.toNat < 32 ∨ 126 < c.toNat then
    if c.toNat < 65536 then '\\' :: 'u' :: hex4 c.toNat
    else '\\' :: 'u' :: hex4 (55296 + (c.toNat - 65536) / 1024) ++
      '\\' :: 'u' :: hex4 (56320 + (c.toNat - 65536) % 1024)
  else [c]

/-- `json.dumps` escaping of a whole string (without the quotes). -/
def escapeString : List Char → List Char
  | [] => []
  | c :: r => escapeChar c ++ escapeString r

/-- `indent`-many spaces. -/
def indentStr (d : Nat) : List Char := List.replicate d ' '

mutual
/-- `json.dumps(v, indent=2)` at nesting depth `d` (so with item
separator `",\n"` and key separator `": "`, as the `json` module uses
when `indent` is given). -/
def dumpsVal : Nat → Json → List Char
  | _, .null => ['n', 'u', 'l', 'l']
  | _, .bool true => ['t', 'r', 'u', 'e']
  | _, .bool false => ['f', 'a', 'l', 's', 'e']
  | _, .num n => intToDigits n
  | _, .str s => '"' :: (escapeString s ++ ['"'])
  | _, .arr [] => ['[', ']']
  | d, .arr (x :: xs) =>
    '[' :: '\n' :: (indentStr (d + 2) ++ (dumpsVal (d + 2) x ++
      (dumpsItemsTail (d + 2) xs ++ '\n' :: (indentStr d ++ [']']))))
  | _, .obj [] => ['\x7b', '\x7d']
  | d, .obj ((k, v) :: kvs) =>
    '\x7b' :: '\n' :: (indentStr (d + 2) ++
      (('"' :: (escapeString k ++ ('"' :: ':' :: ' ' :: dumpsVal (d + 2) v))) ++
      (dumpsMembersTail (d + 2) kvs ++ '\n' :: (indentStr d ++ ['\x7d']))))
termination_by structural d v => v

/-- `",\n" ++ indent ++ item` for each remaining array item. -/
def dumpsItemsTail : Nat → List Json → List Char
  | _, [] => []
  | d, x :: xs =>
    ',' :: '\n' :: (indentStr d ++ (dumpsVal d x ++ dumpsItemsTail d xs))
termination_by structural d xs => xs

/-- `",\n" ++ indent ++ member` for each remaining object member. -/
def dumpsMembersTail : Nat → List (List Char × Json) → List Char
  | _, [] => []
  | d, (k, v) :: kvs =>
    ',' :: '\n' :: (indentStr d ++
      (('"' :: (escapeString k ++ ('"' :: ':' :: ' ' :: dumpsVal d v))) ++
        dumpsMembersTail d kvs))
termination_by structural d kvs => kvs
end

/-- One `"key": value` member (view of the member text emitted inside
`dumpsVal` / `dumpsMembersTail`). -/
def dumpsMember (d : Nat) (k : List Char) (v : Json) : List Char :=
  '"' :: (escapeString k ++ ('"' :: ':' :: ' ' :: dumpsVal d v))

/-- `json.dumps(v, indent=2)`. -/
def dumps (v : Json) : List Char := dumpsVal 0 v

/-! ### JSON parser (`json.loads`) -/

/-- JSON inter-token whitespace (space, tab, newline, carriage return). -/
def isJsonWs (c : Char) : Bool :=
  c.toNat == 32 || c.toNat == 9 || c.toNat == 10 || c.toNat == 13

/-- Skip inter-token whitespace. -/
def skipWs (s : List Char) : List Char := s.dropWhile isJsonWs

/-- ASCII decimal digit test. -/
def isDigitChar (c : Char) : Bool := decide (48 ≤ c.toNat ∧ c.toNat ≤ 57)

/-- Value of a hexadecimal digit (both cases, as `json.loads` accepts). -/
def hexDigitVal? (c : Char) : Option Nat :=
  if 48 ≤ c.toNat ∧ c.toNat ≤ 57 then some (c.toNat - 48)
  else if 97 ≤ c.toNat ∧ c.toNat ≤ 102 then some (c.toNat - 87)
  else if 65 ≤ c.toNat ∧ c.toNat ≤ 70 then some (c.toNat - 55)
  else Option.none

/-- Value of a four-digit hexadecimal escape body. -/
def hex4val (h1 h2 h3 h4 : Char) : Option Nat := do
  let d1 ← hexDigitVal? h1
  let d2 ← hexDigitVal? h2
  let d3 ← hexDigitVal? h3
  let d4 ← hexDigitVal? h4
  pure (d1 * 4096 + d2 * 256 + d3 * 16 + d4)

/-- Decoding of a single-character escape. -/
def unescapeChar (e : Char) : Option Char :=
  if e = '"' then some '"'
  else if e = '\\' then some '\\'
  else if e = '/' then some '/'
  else if e = 'b' then some (Char.ofNat 8)
  else if e = 'f' then some (Char.ofNat 12)
  else if e = 'n' then some (Char.ofNat 10)
  else if e = 'r' then some (Char.ofNat 13)
  else if e = 't' then some (Char.ofNat 9)
  else Option.none

/-- Decode the escape sequence that follows a backslash: `\uXXXX` (with
surrogate-pair combination) or a single-character escape; returns the
decoded character and the remaining input.  (Lone surrogates are
rejected: a Python `str` holding one is not a sequence of Unicode scalar
values and has no counterpart in this embedding.) -/
def unescapeLead : List Char → Option (Char × List Char)
  | 'u' :: h1 :: h2 :: h3 :: h4 :: r2 =>
    (match hex4val h1 h2 h3 h4 with
     | Option.none => Option.none
     | some n =>
       if 55296 ≤ n ∧ n ≤ 56319 then
         match r2 with
         | '\\' :: 'u' :: g1 :: g2 :: g3 :: g4 :: r3 =>
           (match hex4val g1 g2 g3 g4 with
            | some m =>
              if 56320 ≤ m ∧ m ≤ 57343 then
                some (Char.ofNat (65536 + (n - 55296) * 1024 + (m - 56320)), r3)
              else Option.none
            | Option.none => Option.none)
         | _ => Option.none
       else if 56320 ≤ n ∧ n ≤ 57343 then Option.none
       else some (Char.ofNat n, r2))
  | e :: r2 =>
    (match unescapeChar e with
     | some u => some (u, r2)
     | Option.none => Option.none)
  | [] => Option.none

/-- Parse the body of a JSON string after the opening quote (fuelled;
each decoded character costs one unit), returning the decoded characters
and the input following the closing quote.  Strict mode: raw control
characters are rejected. -/
def parseStringRestF : Nat → List Char → Option (List Char × List Char)
  | 0, _ => Option.none
  | _ + 1, [] => Option.none
  | fuel + 1, c :: r =>
    if c = '"' then some ([], r)
    else if c = '\\' then
      match unescapeLead r with
      | some (u, r2) => (parseStringRestF fuel r2).map (fun p => (u :: p.1, p.2))
      | Option.none => Option.none
    else if c.toNat < 32 then Option.none
    else (parseStringRestF fuel r).map (fun p => (c :: p.1, p.2))
termination_by structural fuel s => fuel

/-- Parse a JSON string body (ample fuel: one unit per input char). -/
def parseStringRest (s : List Char) : Option (List Char × List Char) :=
  parseStringRestF (s.length + 1) s

/-- Fold decimal digit characters into a number. -/
def digitsToNat (l : List Char) : Nat :=
  l.foldl (fun a c => a * 10 + (c.toNat - 48)) 0

/-- Parse an unsigned JSON integer: one or more digits, no redundant
leading zero, and no fraction/exponent continuation (floats are outside
this embedding, so such numbers are rejected rather than misread). -/
def parseNatPart (s : List Char) : Option (Nat × List Char) :=
  let ds := s.takeWhile isDigitChar
  let rest := s.dropWhile isDigitChar
  if ds = [] then Option.none
  else if 1 < ds.length ∧ ds.headD '0' = '0' then Option.none
  else if rest.headD ' ' = '.' ∨ rest.headD ' ' = 'e' ∨ rest.headD ' ' = 'E' then
    Option.none
  else some (digitsToNat ds, rest)

/-- Parse a JSON number token (integer form). -/
def parseNumberTok (s : List Char) : Option (Json × List Char) :=
  if s.headD ' ' = '-' then
    match parseNatPart s.tail with
    | some (n, rest) => some (.num (-(n : Int)), rest)
    | Option.none => Option.none
  else
    match parseNatPart s with
    | some (n, rest) => some (.num ((n : Int)), rest)
    | Option.none => Option.none

/-- Python `dict` insertion: a repeated key keeps its first position but
takes the latest value. -/
def dictInsert (m : List (List Char × Json)) (k : List Char) (v : Json) :
    List (List Char × Json) :=
  if m.any (fun p => p.1 = k) then m.map (fun p => if p.1 = k then (k, v) else p)
  else m ++ [(k, v)]

/-- Build a Python `dict` from parsed members (last value wins per key). -/
def dictOfList (ms : List (List Char × Json)) : List (List Char × Json) :=
  ms.foldl (fun m kv => dictInsert m kv.1 kv.2) []

mutual
/-- Parse one JSON value (fuelled recursion; `loads` supplies ample
fuel).  Mirrors the JSON grammar accepted by `json.loads`. -/
def parseValue : Nat → List Char → Option (Json × List Char)
  | 0, _ => Option.none
  | fuel + 1, s =>
    match skipWs s with
    | [] => Option.none
    | c :: r =>
      if c = 'n' then
        match r with
        | 'u' :: 'l' :: 'l' :: r2 => some (.null, r2)
        | _ => Option.none
      else if c = 't' then
        match r with
        | 'r' :: 'u' :: 'e' :: r2 => some (.bool true, r2)
        | _ => Option.none
      else if c = 'f' then
        match r with
        | 'a' :: 'l' :: 's' :: 'e' :: r2 => some (.bool false, r2)
        | _ => Option.none
      else if c = '"' then
        match parseStringRest r with
        | some p => some (.str p.1, p.2)
        | Option.none => Option.none
      else if c = '[' then
        let r1 := skipWs r
        if r1.headD ' ' = ']' then some (.arr [], r1.tail)
        else
          match parseValue fuel r1 with
          | some (x, r2) =>
            (match parseArrTail fuel r2 with
             | some (xs, r3) => some (.arr (x :: xs), r3)
             | Option.none => Option.none)
          | Option.none => Option.none
      else if c = '\x7b' then
        let r1 := skipWs r
        if r1.headD ' ' = '\x7d' then some (.obj [], r1.tail)
        else
          match parseMember fuel r1 with
          | some (kv, r2) =>
            (match parseObjTail fuel r2 with
             | some (kvs, r3) => some (.obj (dictOfList (kv :: kvs)), r3)
             | Option.none => Option.none)
          | Option.none => Option.none
      else parseNumberTok (c :: r)
termination_by structural fuel s => fuel

/-- Parse `, item`* `]` after the first array element. -/
def parseArrTail : Nat → List Char → Option (List Json × List Char)
  | 0, _ => Option.none
  | fuel + 1, s =>
    let r0 := skipWs s
    if r0.headD ' ' = ']' then some ([], r0.tail)
    else if r0.headD ' ' = ',' then
      match parseValue fuel r0.tail with
      | some (x, r2) =>
        (match parseArrTail fuel r2 with
         | some (xs, r3) => some (x :: xs, r3)
         | Option.none => Option.none)
      | Option.none => Option.none
    else Option.none
termination_by structural fuel s => fuel

/-- Parse one `"key": value` member. -/
def parseMember : Nat → List Char → Option ((List Char × Json) × List Char)
  | 0, _ => Option.none
  | fuel + 1, s =>
    let r0 := skipWs s
    if r0.headD ' ' = '"' then
      match parseStringRest r0.tail with
      | some (k, r2) =>
        (let r3 := skipWs r2
         if r3.headD ' ' = ':' then
           match parseValue fuel r3.tail with
           | some (v, r4) => some ((k, v), r4)
           | Option.none => Option.none
         else Option.none)
      | Option.none => Option.none
    else Option.none
termination_by structural fuel s => fuel

/-- Parse `, member`* `}` after the first object member. -/
def parseObjTail : Nat → List Char → Option (List (List Char × Json) × List Char)
  | 0, _ => Option.none
  | fuel + 1, s =>
    let r0 := skipWs s
    if r0.headD ' ' = '\x7d' then some ([], r0.tail)
    else if r0.headD ' ' = ',' then
      match parseMember fuel r0.tail with
      | some (kv, r2) =>
        (match parseObjTail fuel r2 with
         | some (kvs, r3) => some (kv :: kvs, r3)
         | Option.none => Option.none)
      | Option.none => Option.none
    else Option.none
termination_by structural fuel s => fuel
end

/-- The continuation after a number token must not extend it: no digit
and no fraction/exponent starter.  (Inside `dumps` output a value is
always followed by `,`, a newline, `]`, `}`, or the end.) -/
def numBoundary (r : List Char) : Bool :=
  match r with
  | [] => true
  | c :: _ => decide (isDigitChar c = false ∧ c ≠ '.' ∧ c ≠ 'e' ∧ c ≠ 'E')

mutual
/-- Parser fuel needed for a value (one unit per grammar step). -/
def jsizeF : Json → Nat
  | .null | .bool _ | .num _ | .str _ => 1
  | .arr xs => 2 + jsizeItems xs
  | .obj kvs => 2 + jsizeMembers kvs
termination_by structural v => v

/-- Parser fuel needed for an array tail. -/
def jsizeItems : List Json → Nat
  | [] => 0
  | x :: xs => 1 + jsizeF x + jsizeItems xs
termination_by structural xs => xs

/-- Parser fuel needed for an object tail. -/
def jsizeMembers : List (List Char × Json) → Nat
  | [] => 0
  | (_, v) :: kvs => 1 + jsizeF v + jsizeMembers kvs
termination_by structural kvs => kvs
end

/-- `json.loads`: parse one value, allow trailing whitespace, reject
trailing garbage. -/
def loads (s : List Char) : Option Json :=
  match parseValue (s.length + 1) s with
  | some (v, rest) => if skipWs rest = [] then some v else Option.none
  | Option.none => Option.none

mutual
/-- Well-formedness of a `Json` value as the image of a Python value:
every object node has pairwise-distinct keys (Python dicts cannot hold a
key twice). -/
def wfJ : Json → Bool
  | .null | .bool _ | .num _ | .str _ => true
  | .arr xs => wfItems xs
  | .obj kvs => decide ((kvs.map Prod.fst).Nodup) && wfMembers kvs
termination_by structural v => v

/-- All array items are well-formed. -/
def wfItems : List Json → Bool
  | [] => true
  | x :: xs => wfJ x && wfItems xs
termination_by structural xs => xs

/-- All object member values are well-formed. -/
def wfMembers : List (List Char × Json) → Bool
  | [] => true
  | (_, v) :: kvs => wfJ v && wfMembers kvs
termination_by structural kvs => kvs
end

/-- Python `dict` lookup (keys are unique, so first match). -/
def lookupKey (kvs : List (List Char × Json)) (k : List Char) : Option Json :=
  (kvs.find? (fun p => p.1 = k)).map Prod.snd

/-- `parse_items_from_json` from `src/data_handling/json_api.py`:
`json.loads`, then require a dict with an `'items'` list; `ValueError`
messages are modelled as the error text. -/
def parse_items_from_json (payload : List Char) : Except (List Char) (List Json) :=
  match loads payload with
  | Option.none => .error ("Invalid JSON payload".data)
  | some obj =>
    match obj with
    | .obj kvs =>
      (match lookupKey kvs ("items".data) with
       | some (.arr items) => .ok items
       | some _ => .error ("Payload must be a dict with an 'items' list".data)
       | Option.none => .error ("Payload must be a dict with an 'items' list".data))
    | _ => .error ("Payload must be a dict with an 'items' list".data)

/-! ### File-system model for `write_json` / `read_json`

A path is a list of name components; the state holds the set of existing
directories and the files' text contents.  `Path.write_text` requires
the parent directory to exist (it creates no directories) and the module
body creates only `./data` at import time. -/

/-- A relative path, as its list of components. -/
abbrev PyPath : Type := List (List Char)

/-- File-system state: existing directories and file contents. -/
structure PyFS : Type where
  dirs : List PyPath
  files : List (PyPath × List Char)

/-- `Path.write_text`: succeeds iff the parent directory exists (the
root/current directory always does); creates or overwrites the file. -/
def write_text (fs : PyFS) (p : PyPath) (content : List Char) : Option PyFS :=
  if p.dropLast = ([] : List (List Char)) ∨ p.dropLast ∈ fs.dirs then
    some ⟨fs.dirs, (p, content) :: fs.files⟩
  else Option.none

/-- `Path.read_text`: the most recently written content. -/
def read_text (fs : PyFS) (p : PyPath) : Option (List Char) :=
  (fs.files.find? (fun q => q.1 = p)).map Prod.snd

/-- `write_json` from `src/data_handling/json_api.py`:
`path.write_text(json.dumps(obj, indent=indent), encoding="utf-8")`
with the default `indent=2`. -/
def write_json (fs : PyFS) (p : PyPath) (v : Json) : Option PyFS :=
  write_text fs p (dumps v)

/-- `read_json`: `json.loads(path.read_text(encoding="utf-8"))`. -/
def read_json (fs : PyFS) (p : PyPath) : Option Json :=
  match read_text fs p with
  | some t => loads t
  | Option.none => Option.none

/-! ### Character-level helper lemmas -/

theorem char_toNat_ofNat {n : Nat} (h : n < 55296) : (Char.ofNat n).toNat = n := by
  have hv : n.isValidChar := Or.inl h
  simp only [Char.ofNat, dif_pos hv, Char.ofNatAux, Char.toNat]
  simp [UInt32.toNat]

theorem pyLowerChar_toNat_of_upper {c : Char} (h : 65 ≤ c.toNat ∧ c.toNat ≤ 90) :
    (pyLowerChar c).toNat = c.toNat + 32 := by
  simp only [pyLowerChar, if_pos h]
  exact char_toNat_ofNat (by omega)

theorem pyLowerChar_idem (c : Char) : pyLowerChar (pyLowerChar c) = pyLowerChar c := by
  by_cases h : 65 ≤ c.toNat ∧ c.toNat ≤ 90
  · have ht : (pyLowerChar c).toNat = c.toNat + 32 := pyLowerChar_toNat_of_upper h
    have hn : ¬ (65 ≤ (pyLowerChar c).toNat ∧ (pyLowerChar c).toNat ≤ 90) := by omega
    conv_lhs => rw [pyLowerChar]
    rw [if_neg hn]
  · simp only [pyLowerChar, if_neg h]

theorem pyIsSpace_pyLowerChar (c : Char) : pyIsSpace (pyLowerChar c) = pyIsSpace c := by
  by_cases h : 65 ≤ c.toNat ∧ c.toNat ≤ 90
  · have ht : (pyLowerChar c).toNat = c.toNat + 32 := pyLowerChar_toNat_of_upper h
    rw [Bool.eq_iff_iff]
    simp only [pyIsSpace, ht, Bool.or_eq_true, beq_iff_eq]
    omega
  · simp only [pyLowerChar, if_neg h]

/-! ### dropWhile / dropTrail lemmas for `pyStrip` -/

theorem dropWhile_false_head {p : Char → Bool} {c : Char} {l : List Char}
    (h : p c = false) : (c :: l).dropWhile p = c :: l := by
  simp [List.dropWhile, h]

theorem dropWhile_idem (p : Char → Bool) (l : List Char) :
    (l.dropWhile p).dropWhile p = l.dropWhile p := by
  induction l with
  | nil => rfl
  | cons c r ih =>
    by_cases h : p c
    · simp [List.dropWhile, h, ih]
    · simp [List.dropWhile, h]

theorem dropTrail_sat_last (p : Char → Bool) (l : List Char) :
    ∀ c, (dropTrail p l).getLast? = some c → p c = false := by
  induction l with
  | nil => intro c h; simp [dropTrail] at h
  | cons d r ih =>
    intro c h
    rw [dropTrail] at h
    rcases hr : dropTrail p r with _ | ⟨x, xs⟩
    · rw [hr] at h
      by_cases hd : p d = true
      · rw [if_pos hd] at h
        simp at h
      · rw [if_neg hd] at h
        simp at h
        subst h
        exact Bool.eq_false_iff.mpr hd
    · rw [hr] at h
      rw [List.getLast?_cons_cons] at h
      exact ih c (hr ▸ h)

theorem dropTrail_of_last (p : Char → Bool) (l : List Char)
    (h : ∀ c, l.getLast? = some c → p c = false) : dropTrail p l = l := by
  induction l with
  | nil => rfl
  | cons d r ih =>
    rw [dropTrail]
    rcases hr : r with _ | ⟨x, xs⟩
    · have hd : p d = false := h d (by simp [hr])
      simp [hr, hd, dropTrail]
    · have htail : dropTrail p r = r := by
        apply ih
        intro c hc
        apply h c
        rw [hr] at hc ⊢
        rw [List.getLast?_cons_cons]
        exact hc
      rw [hr] at htail
      rw [htail]

theorem dropTrail_head (p : Char → Bool) (d : Char) (r : List Char) :
    dropTrail p (d :: r) = [] ∨ ∃ xs, dropTrail p (d :: r) = d :: xs := by
  rw [dropTrail]
  rcases dropTrail p r with _ | ⟨x, xs⟩
  · by_cases hd : p d
    · left; simp [hd]
    · right; exact ⟨[], by simp [hd]⟩
  · right; exact ⟨x :: xs, rfl⟩

theorem pyStrip_idem (l : List Char) : pyStrip (pyStrip l) = pyStrip l := by
  unfold pyStrip
  have h1 : (dropTrail pyIsSpace (l.dropWhile pyIsSpace)).dropWhile pyIsSpace =
      dropTrail pyIsSpace (l.dropWhile pyIsSpace) := by
    rcases hw : l.dropWhile pyIsSpace with _ | ⟨c, r⟩
    · simp [dropTrail]
    · have hc : pyIsSpace c = false := by
        have := List.head?_dropWhile_not pyIsSpace l
        rw [hw] at this
        simpa using this
      rcases dropTrail_head pyIsSpace c r with h | ⟨xs, h⟩
      · simp [h]
      · rw [h]
        exact dropWhile_false_head hc
  rw [h1]
  exact dropTrail_of_last _ _ (dropTrail_sat_last _ _)

theorem dropTrail_map_lower (l : List Char) :
    dropTrail pyIsSpace (l.map pyLowerChar) = (dropTrail pyIsSpace l).map pyLowerChar := by
  induction l with
  | nil => rfl
  | cons c r ih =>
    rw [List.map_cons, dropTrail, dropTrail, ih]
    rcases hdt : dropTrail pyIsSpace r with _ | ⟨x, xs⟩
    · simp only [hdt, List.map_nil, pyIsSpace_pyLowerChar]
      by_cases h : pyIsSpace c = true
      · simp [h]
      · simp [h]
    · simp [hdt]

theorem pyStrip_pyLower (l : List Char) : pyStrip (pyLower l) = pyLower (pyStrip l) := by
  have hfun : (pyIsSpace ∘ pyLowerChar) = pyIsSpace := funext pyIsSpace_pyLowerChar
  unfold pyStrip pyLower
  rw [List.dropWhile_map, dropTrail_map_lower, hfun]

theorem pyLower_idem (l : List Char) : pyLower (pyLower l) = pyLower l := by
  unfold pyLower
  rw [List.map_map]
  exact List.map_congr_left (fun c _ => pyLowerChar_idem c)

/-- The normalized form `pyLower (pyStrip t)` is a fixed point of
`pyLower ∘ pyStrip`. -/
theorem normalized_fixed (t : List Char) :
    pyLower (pyStrip (pyLower (pyStrip t))) = pyLower (pyStrip t) := by
  rw [pyStrip_pyLower, pyStrip_idem, pyLower_idem]

/-! ### Characterization of `normalize_emails` -/

theorem pyKeepEmail_eq_some {v : PyVal} {s : List Char} :
    pyKeepEmail v = some s ↔ ∃ t, v = .str t ∧ t ≠ [] ∧ pyLower (pyStrip t) = s := by
  cases v with
  | str t =>
    by_cases h : t = []
    · simp [pyKeepEmail, h]
    · simp only [pyKeepEmail, if_neg h, Option.some.injEq, PyVal.str.injEq]
      constructor
      · intro he; exact ⟨t, rfl, h, he⟩
      · rintro ⟨t', rfl, -, he⟩; exact he
  | int n => simp [pyKeepEmail]
  | flt q => simp [pyKeepEmail]
  | bool b => simp [pyKeepEmail]
  | none => simp [pyKeepEmail]

theorem normalize_sorted (xs : List PyVal) :
    (normalize_emails xs).Sorted (· ≤ ·) :=
  List.sorted_insertionSort _ _

theorem normalize_nodup (xs : List PyVal) : (normalize_emails xs).Nodup :=
  (List.perm_insertionSort _ _).nodup_iff.mpr (List.nodup_dedup _)

theorem mem_normalize {xs : List PyVal} {s : List Char} :
    s ∈ normalize_emails xs ↔
      ∃ t, PyVal.str t ∈ xs ∧ t ≠ [] ∧ pyLower (pyStrip t) = s := by
  unfold normalize_emails
  rw [List.mem_insertionSort, List.mem_dedup, List.mem_filterMap]
  constructor
  · rintro ⟨v, hv, hk⟩
    obtain ⟨t, rfl, h1, h2⟩ := pyKeepEmail_eq_some.mp hk
    exact ⟨t, hv, h1, h2⟩
  · rintro ⟨t, ht, h1, h2⟩
    exact ⟨.str t, ht, pyKeepEmail_eq_some.mpr ⟨t, rfl, h1, h2⟩⟩

theorem filterMap_eq_self_of {α : Type} (g : α → Option α) :
    ∀ l : List α, (∀ a ∈ l, g a = some a) → l.filterMap g = l := by
  intro l
  induction l with
  | nil => intro _; rfl
  | cons a r ih =>
    intro h
    rw [List.filterMap_cons, h a (by simp), ih (fun b hb => h b (by simp [hb]))]

/-! ### Claim theorems: equality, safe_div, grading, emails -/

/-- C1 (counterexample): two `UserDC` records with the same `id` but
different `name` are not equal under the dataclass-generated equality,
refuting "equal iff ids match" for `UserDC`. -/
theorem c1_counterexample :
    UserDC.eqPy ⟨1, "Ann".data, "a@x.com".data, true, Option.none⟩
        ⟨1, "Bob".data, "a@x.com".data, true, Option.none⟩ = false ∧
    (UserDC.mk 1 "Ann".data "a@x.com".data true Option.none).id =
      (UserDC.mk 1 "Bob".data "a@x.com".data true Option.none).id := by
  decide

/-- C1 (amended): `User.__eq__` compares equal iff the `id` fields match,
regardless of the other fields; the dataclass `UserDC.__eq__` instead
compares equal iff all of `id`, `name`, `email`, `active`, `fingerprint`
agree. -/
theorem c1_equality_spec :
    (∀ a b : User, User.eqPy a b = true ↔ a.id = b.id) ∧
    (∀ a b : UserDC, UserDC.eqPy a b = true ↔
      a.id = b.id ∧ a.name = b.name ∧ a.email = b.email ∧
      a.active = b.active ∧ a.fingerprint = b.fingerprint) := by
  constructor
  · intro a b
    simp [User.eqPy]
  · intro a b
    simp [UserDC.eqPy, and_assoc]

/-- C9: `grade` maps scores to the five letters by descending threshold
bands with no bounds check, is monotonic, and hits the spec's sample
values. -/
theorem c9_grade_spec :
    (∀ s : Int,
      (grade s = 'A' ↔ 90 ≤ s) ∧ (grade s = 'B' ↔ 80 ≤ s ∧ s < 90) ∧
      (grade s = 'C' ↔ 70 ≤ s ∧ s < 80) ∧ (grade s = 'D' ↔ 60 ≤ s ∧ s < 70) ∧
      (grade s = 'F' ↔ s < 60)) ∧
    (∀ s t : Int, s ≤ t → gradeRank (grade s) ≤ gradeRank (grade t)) ∧
    grade 90 = 'A' ∧ grade 89 = 'B' ∧ grade 59 = 'F' ∧
    grade 120 = 'A' ∧ grade (-5) = 'F' := by
  refine ⟨?_, ?_, by decide, by decide, by decide, by decide, by decide⟩
  · intro s
    unfold grade
    split_ifs with h1 h2 h3 h4 <;>
      refine ⟨?_, ?_, ?_, ?_, ?_⟩ <;> simp_all <;> omega
  · intro s t hst
    unfold grade
    split_ifs <;> first | decide | (exfalso; omega)

/-- C9 (witness): monotonicity applied at 50 ≤ 95. -/
theorem c9_witness : gradeRank (grade 50) ≤ gradeRank (grade 95) :=
  c9_grade_spec.2.1 50 95 (by decide)

/-- C6 (counterexample): the input `[" "]` — a non-empty, all-whitespace
text entry — is kept by the filter and strips to the empty string, so the
output contains an empty string. -/
theorem c6_counterexample :
    normalize_emails [PyVal.str [' ']] = [([] : List Char)] ∧
    ([] : List Char) ∈ normalize_emails [PyVal.str [' ']] := by
  decide

/-- C6 (amended): `normalize_emails` returns the sorted list of distinct
trimmed, lowercased values of the non-empty text entries; non-text or
empty entries are dropped, but a non-empty whitespace-only entry trims to
the empty string and is kept, so an output element may be empty. -/
theorem c6_normalize_spec :
    ∀ xs : List PyVal,
      (normalize_emails xs).Sorted (· ≤ ·) ∧ (normalize_emails xs).Nodup ∧
      (∀ s, s ∈ normalize_emails xs ↔
        ∃ t, PyVal.str t ∈ xs ∧ t ≠ [] ∧ pyLower (pyStrip t) = s) :=
  fun xs => ⟨normalize_sorted xs, normalize_nodup xs, fun _ => mem_normalize⟩

/-- C7 (counterexample): idempotence fails on the input `[" "]`: the
first application yields `[""]`, whose re-normalization drops the empty
string and yields `[]`. -/
theorem c7_counterexample :
    normalize_emails ((normalize_emails [PyVal.str [' ']]).map PyVal.str) ≠
      normalize_emails [PyVal.str [' ']] := by
  decide

/-- C7 (amended): `normalize_emails` is idempotent on every input whose
normalization does not contain the empty string (i.e. without non-empty
whitespace-only entries), and `[" A@X.com", "a@x.com"]` normalizes to
`["a@x.com"]`. -/
theorem c7_normalize_idem :
    (∀ xs : List PyVal, ([] : List Char) ∉ normalize_emails xs →
      normalize_emails ((normalize_emails xs).map PyVal.str) = normalize_emails xs) ∧
    normalize_emails [PyVal.str " A@X.com".data, PyVal.str "a@x.com".data] =
      ["a@x.com".data] := by
  constructor
  · intro xs h
    have hfm : ((normalize_emails xs).map PyVal.str).filterMap pyKeepEmail =
        normalize_emails xs := by
      rw [List.filterMap_map]
      apply filterMap_eq_self_of
      intro s hs
      have hne : s ≠ [] := fun he => h (he ▸ hs)
      obtain ⟨t, -, -, hform⟩ := mem_normalize.mp hs
      show pyKeepEmail (PyVal.str s) = some s
      simp only [pyKeepEmail, if_neg hne, Option.some.injEq]
      rw [← hform, normalized_fixed]
    show (((normalize_emails xs).map PyVal.str).filterMap
        pyKeepEmail).dedup.insertionSort (· ≤ ·) = normalize_emails xs
    rw [hfm, List.dedup_eq_self.mpr (normalize_nodup xs)]
    exact List.Sorted.insertionSort_eq (normalize_sorted xs)
  · decide

/-- C7 (witness): idempotence applied to the spec's sample input. -/
theorem c7_witness :
    normalize_emails ((normalize_emails
        [PyVal.str " A@X.com".data, PyVal.str "a@x.com".data]).map PyVal.str) =
      normalize_emails [PyVal.str " A@X.com".data, PyVal.str "a@x.com".data] :=
  c7_normalize_idem.1 _ (by decide)

/-! ### Deduplication by id (C8) -/

theorem dedupeAux_eq_keepFirst :
    ∀ (l : List User) (seen : List Int),
      dedupeAux seen l = keepFirstById (l.filter (fun u => decide (u.id ∉ seen))) := by
  intro l
  induction l with
  | nil => intro seen; simp [dedupeAux, keepFirstById]
  | cons u rest ih =>
    intro seen
    rw [List.filter_cons]
    by_cases h : u.id ∈ seen
    · rw [dedupeAux, if_pos h]
      have hd : decide (u.id ∉ seen) = false := by simp [h]
      rw [hd]
      simp only [Bool.false_eq_true, if_neg]
      exact ih seen
    · rw [dedupeAux, if_neg h]
      have hd : decide (u.id ∉ seen) = true := by simp [h]
      rw [hd, if_pos rfl, keepFirstById]
      congr 1
      rw [ih (u.id :: seen), List.filter_filter]
      congr 1
      apply List.filter_congr
      intro v _
      rw [Bool.eq_iff_iff]
      simp only [decide_eq_true_eq, Bool.and_eq_true, List.mem_cons, not_or]

theorem filter_id_toFinset_erase (u : User) (rest : List User) :
    ((rest.filter (fun v => v.id ≠ u.id)).map User.id).toFinset =
      ((rest.map User.id).toFinset).erase u.id := by
  ext a
  simp only [List.mem_toFinset, List.mem_map, List.mem_filter, Finset.mem_erase,
    decide_eq_true_eq]
  constructor
  · rintro ⟨v, ⟨hv, hne⟩, rfl⟩
    exact ⟨hne, v, hv, rfl⟩
  · rintro ⟨hne, v, hv, rfl⟩
    exact ⟨v, ⟨hv, hne⟩, rfl⟩

theorem keepFirstById_length :
    ∀ l : List User, (keepFirstById l).length = ((l.map User.id).toFinset).card := by
  intro l
  induction l using keepFirstById.induct with
  | case1 => simp [keepFirstById]
  | case2 u rest ih =>
    rw [keepFirstById, List.length_cons, ih, filter_id_toFinset_erase,
      List.map_cons, List.toFinset_cons]
    by_cases h : u.id ∈ (rest.map User.id).toFinset
    · rw [Finset.insert_eq_self.mpr h, ← Finset.card_erase_add_one h]
    · rw [Finset.card_insert_of_not_mem h, Finset.erase_eq_of_not_mem h]

/-- C8: `dedupe_users_by_id` keeps the first record for each id in input
order and drops the later ones (the `keepFirstById` formulation of the
spec); the output length is the number of distinct ids; and on a
`[id1, id2, id1]`-shaped input it returns the first two records. -/
theorem c8_dedupe_spec :
    (∀ users : List User,
      dedupe_users_by_id users = keepFirstById users ∧
      (dedupe_users_by_id users).length = ((users.map User.id).toFinset).card) ∧
    (∀ u1 u2 u3 : User, u1.id ≠ u2.id → u3.id = u1.id →
      dedupe_users_by_id [u1, u2, u3] = [u1, u2]) := by
  have hmain : ∀ users : List User, dedupe_users_by_id users = keepFirstById users := by
    intro users
    unfold dedupe_users_by_id
    rw [dedupeAux_eq_keepFirst]
    congr 1
    apply List.filter_eq_self.mpr
    intro a _
    simp
  refine ⟨fun users => ⟨hmain users, ?_⟩, ?_⟩
  · rw [hmain]
    exact keepFirstById_length users
  · intro u1 u2 u3 h12 h31
    have h21 : u2.id ≠ u1.id := Ne.symm h12
    unfold dedupe_users_by_id
    rw [dedupeAux, if_neg (List.not_mem_nil u1.id)]
    rw [dedupeAux, if_neg (by simp [h21])]
    rw [dedupeAux, if_pos (by simp [h31])]
    rw [dedupeAux]

/-- C8 (witness): the spec's `[id1, id2, id1]` example at concrete
records. -/
theorem c8_witness :
    dedupe_users_by_id
        [⟨1, "Ann".data, "ann@x.com".data, true⟩,
         ⟨2, "Bob".data, "bob@x.com".data, true⟩,
         ⟨1, "Ann-dup".data, "ann@dup.com".data, true⟩] =
      [⟨1, "Ann".data, "ann@x.com".data, true⟩,
       ⟨2, "Bob".data, "bob@x.com".data, true⟩] :=
  c8_dedupe_spec.2 _ _ _ (by decide) (by decide)

/-! ### Email domain (C10) -/

theorem pySplit_ne_nil (sep : Char) : ∀ l, pySplit sep l ≠ [] := by
  intro l
  induction l with
  | nil => simp [pySplit]
  | cons c r ih =>
    rw [pySplit]
    by_cases h : c = sep
    · simp [h]
    · rw [if_neg h]
      rcases hp : pySplit sep r with _ | ⟨p, ps⟩
      · simp
      · simp

theorem pySplit_append (sep : Char) (b : List Char) :
    ∀ a : List Char, pySplit sep (a ++ sep :: b) = pySplit sep a ++ pySplit sep b := by
  intro a
  induction a with
  | nil => simp [pySplit]
  | cons c a' ih =>
    rw [List.cons_append, pySplit, pySplit]
    by_cases h : c = sep
    · rw [if_pos h, if_pos h, ih]
      rfl
    · rw [if_neg h, if_neg h, ih]
      rcases hp : pySplit sep a' with _ | ⟨p, ps⟩
      · exact absurd hp (pySplit_ne_nil sep a')
      · simp [hp]

theorem pySplit_no_sep (sep : Char) :
    ∀ b : List Char, sep ∉ b → pySplit sep b = [b] := by
  intro b
  induction b with
  | nil => intro _; rfl
  | cons c r ih =>
    intro h
    have hc : ¬ c = sep := fun hc => h (by rw [hc]; exact List.mem_cons_self _ _)
    rw [pySplit, if_neg hc, ih (fun hm => h (List.mem_cons_of_mem c hm))]

theorem pyDomain_spec (e : List Char) :
    (∀ a b, e = a ++ '@' :: b → '@' ∉ b → (pySplit '@' e).getLastD [] = b) ∧
    ('@' ∉ e → (pySplit '@' e).getLastD [] = e) := by
  constructor
  · rintro a b rfl hb
    rw [pySplit_append, pySplit_no_sep _ _ hb]
    exact List.getLastD_concat _ _ _
  · intro he
    rw [pySplit_no_sep _ _ he]
    rfl

/-- C10: `domain()` on both `User` and `UserDC` is total: for an email of
the form `a ++ "@" ++ b` with no later `'@'` it returns `b` (the part
after the last `'@'`), and for an email with no `'@'` it returns the
whole email unchanged. -/
theorem c10_domain_spec :
    (∀ u : User,
      (∀ a b, u.email = a ++ '@' :: b → '@' ∉ b → u.domain = b) ∧
      ('@' ∉ u.email → u.domain = u.email)) ∧
    (∀ u : UserDC,
      (∀ a b, u.email = a ++ '@' :: b → '@' ∉ b → u.domain = b) ∧
      ('@' ∉ u.email → u.domain = u.email)) :=
  ⟨fun u => ⟨fun a b h hb => (pyDomain_spec u.email).1 a b h hb,
    fun h => (pyDomain_spec u.email).2 h⟩,
   fun u => ⟨fun a b h hb => (pyDomain_spec u.email).1 a b h hb,
    fun h => (pyDomain_spec u.email).2 h⟩⟩

/-- C10 (witness): domains of concrete `User` and `UserDC` records, with
and without an `'@'` in the email. -/
theorem c10_witness :
    (User.mk 1 "Ann".data "ann@example.com".data true).domain = "example.com".data ∧
    (UserDC.mk 3 "Cara".data "cara@example.com".data true Option.none).domain =
      "example.com".data ∧
    (User.mk 2 "Bob".data "nodomain".data true).domain = "nodomain".data := by
  refine ⟨?_, ?_, ?_⟩
  · exact (c10_domain_spec.1 _).1 "ann".data "example.com".data (by decide) (by decide)
  · exact (c10_domain_spec.2 _).1 "cara".data "example.com".data (by decide) (by decide)
  · exact (c10_domain_spec.1 _).2 (by decide)

/-! ### Decimal digit lemmas -/

theorem digitChar_toNat {d : Nat} (h : d < 10) : (digitChar d).toNat = 48 + d := by
  interval_cases d <;> decide

theorem isDigitChar_digitChar {d : Nat} (h : d < 10) : isDigitChar (digitChar d) = true := by
  interval_cases d <;> decide

theorem digitChar_ne_zero {d : Nat} (h1 : 1 ≤ d) (h2 : d ≤ 9) : digitChar d ≠ '0' := by
  interval_cases d <;> decide

theorem natDigitsRevAux_irrel :
    ∀ f1 f2 n, n ≤ f1 → n ≤ f2 → natDigitsRevAux f1 n = natDigitsRevAux f2 n := by
  intro f1
  induction f1 with
  | zero =>
    intro f2 n h1 _
    interval_cases n
    cases f2 <;> rfl
  | succ f ih =>
    intro f2 n h1 h2
    cases n with
    | zero => cases f2 <;> rfl
    | succ m =>
      cases f2 with
      | zero => omega
      | succ f2' =>
        rw [natDigitsRevAux, natDigitsRevAux]
        congr 1
        exact ih f2' ((m + 1) / 10) (by omega) (by omega)

theorem natDigitsRev_eq {n : Nat} (h : 0 < n) :
    natDigitsRev n = digitChar (n % 10) :: natDigitsRev (n / 10) := by
  obtain ⟨m, rfl⟩ : ∃ m, n = m + 1 := ⟨n - 1, by omega⟩
  show natDigitsRevAux (m + 1) (m + 1) = _
  rw [natDigitsRevAux]
  congr 1
  exact natDigitsRevAux_irrel m ((m + 1) / 10) ((m + 1) / 10) (by omega) (by omega)

theorem natDigitsRev_nil_iff {n : Nat} : natDigitsRev n = [] ↔ n = 0 := by
  constructor
  · intro h
    by_contra hn
    rw [natDigitsRev_eq (by omega)] at h
    exact List.cons_ne_nil _ _ h
  · rintro rfl
    rfl

theorem natDigitsRev_all_digits :
    ∀ n, ∀ c ∈ natDigitsRev n, isDigitChar c = true := by
  intro n
  induction n using Nat.strong_induction_on with
  | _ n ih =>
    intro c hc
    rcases Nat.eq_zero_or_pos n with rfl | hpos
    · simp [natDigitsRev, natDigitsRevAux] at hc
    · rw [natDigitsRev_eq hpos] at hc
      rcases List.mem_cons.mp hc with rfl | hc'
      · exact isDigitChar_digitChar (Nat.mod_lt _ (by omega))
      · exact ih (n / 10) (Nat.div_lt_self hpos (by omega)) c hc'

theorem natDigitsRev_getLast :
    ∀ n, 0 < n → ∃ d, 1 ≤ d ∧ d ≤ 9 ∧ (natDigitsRev n).getLast? = some (digitChar d) := by
  intro n
  induction n using Nat.strong_induction_on with
  | _ n ih =>
    intro hpos
    rw [natDigitsRev_eq hpos]
    rcases Nat.eq_zero_or_pos (n / 10) with hz | hq
    · refine ⟨n % 10, ?_, ?_, ?_⟩
      · have : n < 10 := by omega
        omega
      · omega
      · rw [natDigitsRev_nil_iff.mpr hz]
        rfl
    · obtain ⟨d, hd1, hd9, hlast⟩ := ih (n / 10) (Nat.div_lt_self hpos (by omega)) hq
      refine ⟨d, hd1, hd9, ?_⟩
      rcases hnn : natDigitsRev (n / 10) with _ | ⟨x, xs⟩
      · exact absurd (natDigitsRev_nil_iff.mp hnn) (by omega)
      · rw [hnn] at hlast
        rw [List.getLast?_cons_cons]
        exact hlast

theorem natToDigits_ne_nil (n : Nat) : natToDigits n ≠ [] := by
  unfold natToDigits
  split
  · simp
  · intro h
    rw [List.reverse_eq_nil_iff] at h
    simp_all [natDigitsRev_nil_iff]

theorem natToDigits_all_digits :
    ∀ n, ∀ c ∈ natToDigits n, isDigitChar c = true := by
  intro n c hc
  unfold natToDigits at hc
  split at hc
  · simp at hc
    subst hc
    decide
  · rw [List.mem_reverse] at hc
    exact natDigitsRev_all_digits n c hc

theorem digitsToNat_rev : ∀ n, digitsToNat ((natDigitsRev n).reverse) = n := by
  intro n
  induction n using Nat.strong_induction_on with
  | _ n ih =>
    rcases Nat.eq_zero_or_pos n with rfl | hpos
    · rfl
    · rw [natDigitsRev_eq hpos, List.reverse_cons]
      unfold digitsToNat
      rw [List.foldl_append]
      have := ih (n / 10) (Nat.div_lt_self hpos (by omega))
      unfold digitsToNat at this
      rw [this]
      simp only [List.foldl_cons, List.foldl_nil]
      rw [digitChar_toNat (Nat.mod_lt _ (by omega))]
      omega

theorem digitsToNat_natToDigits (n : Nat) : digitsToNat (natToDigits n) = n := by
  unfold natToDigits
  split
  · subst ‹n = 0›
    rfl
  · exact digitsToNat_rev n

theorem natToDigits_head {n : Nat} (h : 0 < n) : (natToDigits n).headD '0' ≠ '0' := by
  obtain ⟨d, hd1, hd9, hlast⟩ := natDigitsRev_getLast n h
  unfold natToDigits
  rw [if_neg (by omega)]
  have hh : (natDigitsRev n).reverse.head? = some (digitChar d) := by
    rw [List.head?_reverse]
    exact hlast
  rw [List.headD_eq_head?_getD, hh]
  exact digitChar_ne_zero hd1 hd9

/-! ### Number token lemmas -/

theorem takeWhile_append_of {p : Char → Bool} :
    ∀ {l r : List Char}, (∀ c ∈ l, p c = true) →
      (∀ c, r.head? = some c → p c = false) → (l ++ r).takeWhile p = l := by
  intro l
  induction l with
  | nil =>
    intro r _ hr
    cases r with
    | nil => rfl
    | cons c r' =>
      simp only [List.nil_append, List.takeWhile_cons, hr c rfl]
      simp
  | cons a l' ih =>
    intro r hl hr
    simp only [List.cons_append, List.takeWhile_cons, hl a (by simp)]
    rw [ih (fun c hc => hl c (by simp [hc])) hr]
    simp

theorem dropWhile_append_of {p : Char → Bool} :
    ∀ {l r : List Char}, (∀ c ∈ l, p c = true) →
      (∀ c, r.head? = some c → p c = false) → (l ++ r).dropWhile p = r := by
  intro l
  induction l with
  | nil =>
    intro r _ hr
    cases r with
    | nil => rfl
    | cons c r' =>
      simp only [List.nil_append, List.dropWhile_cons, hr c rfl]
      simp
  | cons a l' ih =>
    intro r hl hr
    simp only [List.cons_append, List.dropWhile_cons, hl a (by simp)]
    exact ih (fun c hc => hl c (by simp [hc])) hr

theorem numBoundary_head {r : List Char} (h : numBoundary r = true) :
    ∀ c, r.head? = some c → isDigitChar c = false := by
  intro c hc
  cases r with
  | nil => simp at hc
  | cons x r' =>
    simp only [List.head?_cons, Option.some.injEq] at hc
    subst hc
    simp only [numBoundary, decide_eq_true_eq] at h
    exact h.1

theorem parseNatPart_natToDigits {n : Nat} {r : List Char}
    (hb : numBoundary r = true) : parseNatPart (natToDigits n ++ r) = some (n, r) := by
  have htake : (natToDigits n ++ r).takeWhile isDigitChar = natToDigits n :=
    takeWhile_append_of (natToDigits_all_digits n) (numBoundary_head hb)
  have hdrop : (natToDigits n ++ r).dropWhile isDigitChar = r :=
    dropWhile_append_of (natToDigits_all_digits n) (numBoundary_head hb)
  unfold parseNatPart
  simp only [htake, hdrop]
  rw [if_neg (natToDigits_ne_nil n)]
  have hlead : ¬ (1 < (natToDigits n).length ∧ (natToDigits n).headD '0' = '0') := by
    rcases Nat.eq_zero_or_pos n with rfl | hpos
    · intro ⟨h1, _⟩
      simp [natToDigits] at h1
    · intro ⟨_, h2⟩
      exact natToDigits_head hpos h2
  rw [if_neg hlead]
  have hcont : ¬ (r.headD ' ' = '.' ∨ r.headD ' ' = 'e' ∨ r.headD ' ' = 'E') := by
    cases r with
    | nil => decide
    | cons c r' =>
      simp only [numBoundary, decide_eq_true_eq] at hb
      simp only [List.headD_cons]
      push_neg
      exact ⟨hb.2.1, hb.2.2.1, hb.2.2.2⟩
  rw [if_neg hcont, digitsToNat_natToDigits]

theorem isDigitChar_toNat {c : Char} (h : isDigitChar c = true) :
    48 ≤ c.toNat ∧ c.toNat ≤ 57 := by
  simpa [isDigitChar] using h

theorem parseNumberTok_intToDigits {n : Int} {r : List Char}
    (hb : numBoundary r = true) :
    parseNumberTok (intToDigits n ++ r) = some (.num n, r) := by
  unfold intToDigits
  by_cases hneg : n < 0
  · rw [if_pos hneg]
    unfold parseNumberTok
    simp only [List.cons_append, List.headD_cons, List.tail_cons, if_pos]
    rw [parseNatPart_natToDigits hb]
    have ha : -((n.natAbs : Nat) : Int) = n := by omega
    show some (Json.num (-((n.natAbs : Nat) : Int)), r) = some (Json.num n, r)
    rw [ha]
  · rw [if_neg hneg]
    unfold parseNumberTok
    have hne : (natToDigits n.toNat ++ r).headD ' ' ≠ '-' := by
      rcases hh : natToDigits n.toNat with _ | ⟨c, t⟩
      · exact absurd hh (natToDigits_ne_nil _)
      · have hd : isDigitChar c = true :=
          natToDigits_all_digits _ c (by rw [hh]; exact List.mem_cons_self _ _)
        have h48 := isDigitChar_toNat hd
        simp only [List.cons_append, List.headD_cons]
        intro he
        rw [he] at h48
        simp at h48
    rw [if_neg hne, parseNatPart_natToDigits hb]
    have ha : ((n.toNat : Nat) : Int) = n := by omega
    show some (Json.num ((n.toNat : Nat) : Int), r) = some (Json.num n, r)
    rw [ha]

/-! ### String escaping round trip -/

theorem hexDigitVal_hexDigitChar {d : Nat} (h : d < 16) :
    hexDigitVal? (hexDigitChar d) = some d := by
  interval_cases d <;> decide

theorem hex4val_hex4 {n : Nat} (h : n < 65536) :
    hex4val (hexDigitChar (n / 4096 % 16)) (hexDigitChar (n / 256 % 16))
      (hexDigitChar (n / 16 % 16)) (hexDigitChar (n % 16)) = some n := by
  have e1 := hexDigitVal_hexDigitChar (show n / 4096 % 16 < 16 from Nat.mod_lt _ (by omega))
  have e2 := hexDigitVal_hexDigitChar (show n / 256 % 16 < 16 from Nat.mod_lt _ (by omega))
  have e3 := hexDigitVal_hexDigitChar (show n / 16 % 16 < 16 from Nat.mod_lt _ (by omega))
  have e4 := hexDigitVal_hexDigitChar (show n % 16 < 16 from Nat.mod_lt _ (by omega))
  simp only [hex4val, e1, e2, e3, e4, Option.bind_eq_bind, Option.some_bind]
  congr 1
  omega

theorem char_valid_range (c : Char) :
    c.toNat < 55296 ∨ (57344 ≤ c.toNat ∧ c.toNat < 1114112) := c.valid

theorem unescapeLead_u4 {h1 h2 h3 h4 : Char} {n : Nat} {T : List Char}
    (hv : hex4val h1 h2 h3 h4 = some n)
    (h5 : ¬ (55296 ≤ n ∧ n ≤ 56319)) (h6 : ¬ (56320 ≤ n ∧ n ≤ 57343)) :
    unescapeLead ('u' :: h1 :: h2 :: h3 :: h4 :: T) = some (Char.ofNat n, T) := by
  simp only [unescapeLead, hv]
  rw [if_neg h5, if_neg h6]

theorem unescapeLead_u_pair {h1 h2 h3 h4 g1 g2 g3 g4 : Char} {n m : Nat} {T : List Char}
    (hv1 : hex4val h1 h2 h3 h4 = some n) (hhi : 55296 ≤ n ∧ n ≤ 56319)
    (hv2 : hex4val g1 g2 g3 g4 = some m) (hlo : 56320 ≤ m ∧ m ≤ 57343) :
    unescapeLead ('u' :: h1 :: h2 :: h3 :: h4 ::
        ('\\' :: 'u' :: g1 :: g2 :: g3 :: g4 :: T)) =
      some (Char.ofNat (65536 + (n - 55296) * 1024 + (m - 56320)), T) := by
  simp only [unescapeLead, hv1]
  rw [if_pos hhi]
  simp only [hv2]
  rw [if_pos hlo]

theorem parseStringRestF_plain {fuel : Nat} {c : Char} {T : List Char}
    (h1 : c ≠ '"') (h2 : c ≠ '\\') (h3 : ¬ c.toNat < 32) :
    parseStringRestF (fuel + 1) (c :: T) =
      (parseStringRestF fuel T).map (fun p => (c :: p.1, p.2)) := by
  rw [parseStringRestF]
  rw [if_neg h1, if_neg h2, if_neg h3]

theorem parseStringRestF_escape {fuel : Nat} {u : Char} {r T : List Char}
    (h : unescapeLead r = some (u, T)) :
    parseStringRestF (fuel + 1) ('\\' :: r) =
      (parseStringRestF fuel T).map (fun p => (u :: p.1, p.2)) := by
  rw [parseStringRestF]
  rw [if_neg (by decide), if_pos rfl, h]

theorem parseStringRestF_spec :
    ∀ (s : List Char) (fuel : Nat) (r : List Char), s.length < fuel →
      parseStringRestF fuel (escapeString s ++ '"' :: r) = some (s, r) := by
  intro s
  induction s with
  | nil =>
    intro fuel r hf
    obtain ⟨f, rfl⟩ : ∃ f, fuel = f + 1 := ⟨fuel - 1, by omega⟩
    show parseStringRestF (f + 1) ('"' :: r) = some ([], r)
    rw [parseStringRestF, if_pos rfl]
  | cons c s' ih =>
    intro fuel r hf
    obtain ⟨f, rfl⟩ : ∃ f, fuel = f + 1 := ⟨fuel - 1, by omega⟩
    have hf' : s'.length < f := by
      simp only [List.length_cons] at hf
      omega
    have ihr := ih f r hf'
    rw [show escapeString (c :: s') = escapeChar c ++ escapeString s' from rfl,
      List.append_assoc]
    unfold escapeChar
    by_cases e1 : c = '"'
    · subst e1
      rw [if_pos rfl]
      rw [show ((['\\', '"'] : List Char) ++ (escapeString s' ++ '"' :: r)) =
        '\\' :: ('"' :: (escapeString s' ++ '"' :: r)) from rfl]
      rw [parseStringRestF_escape (by rfl), ihr]
      rfl
    · rw [if_neg e1]
      by_cases e2 : c = '\\'
      · subst e2
        rw [if_pos rfl]
        rw [show ((['\\', '\\'] : List Char) ++ (escapeString s' ++ '"' :: r)) =
          '\\' :: ('\\' :: (escapeString s' ++ '"' :: r)) from rfl]
        rw [parseStringRestF_escape (by rfl), ihr]
        rfl
      · rw [if_neg e2]
        by_cases e3 : c.toNat = 10
        · rw [if_pos e3]
          rw [show ((['\\', 'n'] : List Char) ++ (escapeString s' ++ '"' :: r)) =
            '\\' :: ('n' :: (escapeString s' ++ '"' :: r)) from rfl]
          rw [parseStringRestF_escape (by rfl), ihr]
          have : Char.ofNat 10 = c := by rw [← e3, Char.ofNat_toNat]
          rw [this]
          rfl
        · rw [if_neg e3]
          by_cases e4 : c.toNat = 9
          · rw [if_pos e4]
            rw [show ((['\\', 't'] : List Char) ++ (escapeString s' ++ '"' :: r)) =
              '\\' :: ('t' :: (escapeString s' ++ '"' :: r)) from rfl]
            rw [parseStringRestF_escape (by rfl), ihr]
            have : Char.ofNat 9 = c := by rw [← e4, Char.ofNat_toNat]
            rw [this]
            rfl
          · rw [if_neg e4]
            by_cases e5 : c.toNat = 13
            · rw [if_pos e5]
              rw [show ((['\\', 'r'] : List Char) ++ (escapeString s' ++ '"' :: r)) =
                '\\' :: ('r' :: (escapeString s' ++ '"' :: r)) from rfl]
              rw [parseStringRestF_escape (by rfl), ihr]
              have : Char.ofNat 13 = c := by rw [← e5, Char.ofNat_toNat]
              rw [this]
              rfl
            · rw [if_neg e5]
              by_cases e6 : c.toNat = 8
              · rw [if_pos e6]
                rw [show ((['\\', 'b'] : List Char) ++ (escapeString s' ++ '"' :: r)) =
                  '\\' :: ('b' :: (escapeString s' ++ '"' :: r)) from rfl]
                rw [parseStringRestF_escape (by rfl), ihr]
                have : Char.ofNat 8 = c := by rw [← e6, Char.ofNat_toNat]
                rw [this]
                rfl
              · rw [if_neg e6]
                by_cases e7 : c.toNat = 12
                · rw [if_pos e7]
                  rw [show ((['\\', 'f'] : List Char) ++ (escapeString s' ++ '"' :: r)) =
                    '\\' :: ('f' :: (escapeString s' ++ '"' :: r)) from rfl]
                  rw [parseStringRestF_escape (by rfl), ihr]
                  have : Char.ofNat 12 = c := by rw [← e7, Char.ofNat_toNat]
                  rw [this]
                  rfl
                · rw [if_neg e7]
                  by_cases e8 : c.toNat < 32 ∨ 126 < c.toNat
                  · rw [if_pos e8]
                    by_cases e9 : c.toNat < 65536
                    · rw [if_pos e9]
                      simp only [hex4, List.cons_append, List.nil_append]
                      have hu := unescapeLead_u4 (T := escapeString s' ++ '"' :: r)
                        (hex4val_hex4 e9)
                        (by rcases char_valid_range c with h | h <;> omega)
                        (by rcases char_valid_range c with h | h <;> omega)
                      rw [parseStringRestF_escape hu, ihr, Char.ofNat_toNat]
                      rfl
                    · rw [if_neg e9]
                      simp only [hex4, List.cons_append, List.nil_append,
                        List.append_nil]
                      have hv : c.toNat < 1114112 := by
                        rcases char_valid_range c with h | h <;> omega
                      have hhi : 55296 + (c.toNat - 65536) / 1024 < 65536 := by
                        have : (c.toNat - 65536) / 1024 ≤ 1023 := by omega
                        omega
                      have hlo : 56320 + (c.toNat - 65536) % 1024 < 65536 := by
                        have : (c.toNat - 65536) % 1024 < 1024 := Nat.mod_lt _ (by omega)
                        omega
                      have hu := unescapeLead_u_pair (T := escapeString s' ++ '"' :: r)
                        (hex4val_hex4 hhi)
                        (by
                          constructor
                          · omega
                          · have : (c.toNat - 65536) / 1024 ≤ 1023 := by omega
                            omega)
                        (hex4val_hex4 hlo)
                        (by
                          constructor
                          · omega
                          · have : (c.toNat - 65536) % 1024 < 1024 :=
                              Nat.mod_lt _ (by omega)
                            omega)
                      rw [parseStringRestF_escape hu, ihr]
                      have harith :
                          65536 + ((55296 + (c.toNat - 65536) / 1024) - 55296) * 1024 +
                            ((56320 + (c.toNat - 65536) % 1024) - 56320) = c.toNat := by
                        have := Nat.div_add_mod (c.toNat - 65536) 1024
                        omega
                      rw [harith, Char.ofNat_toNat]
                      rfl
                  · rw [if_neg e8]
                    rw [show (([c] : List Char) ++ (escapeString s' ++ '"' :: r)) =
                      c :: (escapeString s' ++ '"' :: r) from rfl]
                    rw [parseStringRestF_plain e1 e2 (by omega), ihr]
                    rfl

theorem escapeChar_length_pos (c : Char) : 1 ≤ (escapeChar c).length := by
  unfold escapeChar
  split_ifs <;> simp [hex4]

theorem escapeString_length : ∀ s : List Char, s.length ≤ (escapeString s).length := by
  intro s
  induction s with
  | nil => simp [escapeString]
  | cons c s' ih =>
    rw [escapeString, List.length_append, List.length_cons]
    have := escapeChar_length_pos c
    omega

theorem parseStringRest_spec (s r : List Char) :
    parseStringRest (escapeString s ++ '"' :: r) = some (s, r) := by
  unfold parseStringRest
  apply parseStringRestF_spec
  have h1 := escapeString_length s
  have : s.length ≤ (escapeString s ++ '"' :: r).length := by
    rw [List.length_append]
    omega
  omega

/-! ### Whitespace and token-head lemmas -/

theorem skipWs_cons_neg {c : Char} {l : List Char} (h : isJsonWs c = false) :
    skipWs (c :: l) = c :: l := by
  simp [skipWs, List.dropWhile_cons, h]

theorem skipWs_cons_pos {c : Char} {l : List Char} (h : isJsonWs c = true) :
    skipWs (c :: l) = skipWs l := by
  simp [skipWs, List.dropWhile_cons, h]

theorem skipWs_indent (d : Nat) (l : List Char) :
    skipWs (indentStr d ++ l) = skipWs l := by
  induction d with
  | zero => rfl
  | succ d' ih =>
    rw [indentStr, List.replicate_succ, List.cons_append,
      skipWs_cons_pos (by decide)]
    exact ih

theorem skipWs_nl_indent (d : Nat) (l : List Char) :
    skipWs ('\n' :: (indentStr d ++ l)) = skipWs l := by
  rw [skipWs_cons_pos (by decide), skipWs_indent]

theorem digit_head_facts {c : Char} (h : isDigitChar c = true) :
    isJsonWs c = false ∧ c ≠ ']' ∧ c ≠ '\x7d' ∧ c ≠ 'n' ∧ c ≠ 't' ∧ c ≠ 'f' ∧
      c ≠ '"' ∧ c ≠ '[' ∧ c ≠ '\x7b' := by
  have hb := isDigitChar_toNat h
  refine ⟨?_, fun he => absurd (he ▸ hb) (by decide),
    fun he => absurd (he ▸ hb) (by decide), fun he => absurd (he ▸ hb) (by decide),
    fun he => absurd (he ▸ hb) (by decide), fun he => absurd (he ▸ hb) (by decide),
    fun he => absurd (he ▸ hb) (by decide), fun he => absurd (he ▸ hb) (by decide),
    fun he => absurd (he ▸ hb) (by decide)⟩
  have : ¬ (isJsonWs c = true) := by
    simp only [isJsonWs, Bool.or_eq_true, beq_iff_eq]
    omega
  exact Bool.eq_false_iff.mpr this

theorem dumpsVal_head (d : Nat) (v : Json) :
    ∃ c t, dumpsVal d v = c :: t ∧ isJsonWs c = false ∧ c ≠ ']' ∧ c ≠ '\x7d' := by
  cases v with
  | null => exact ⟨'n', _, by rw [dumpsVal], by decide, by decide, by decide⟩
  | bool b =>
    cases b with
    | true => exact ⟨'t', _, by rw [dumpsVal], by decide, by decide, by decide⟩
    | false => exact ⟨'f', _, by rw [dumpsVal], by decide, by decide, by decide⟩
  | num n =>
    rw [dumpsVal]
    unfold intToDigits
    by_cases hneg : n < 0
    · rw [if_pos hneg]
      exact ⟨'-', _, rfl, by decide, by decide, by decide⟩
    · rw [if_neg hneg]
      rcases hh : natToDigits n.toNat with _ | ⟨c, t⟩
      · exact absurd hh (natToDigits_ne_nil _)
      · have hd : isDigitChar c = true :=
          natToDigits_all_digits _ c (by rw [hh]; exact List.mem_cons_self _ _)
        obtain ⟨f1, f2, f3, -⟩ := digit_head_facts hd
        exact ⟨c, t, rfl, f1, f2, f3⟩
  | str s => exact ⟨'"', _, by rw [dumpsVal], by decide, by decide, by decide⟩
  | arr xs =>
    cases xs with
    | nil => exact ⟨'[', _, by rw [dumpsVal], by decide, by decide, by decide⟩
    | cons x xs' => exact ⟨'[', _, by rw [dumpsVal], by decide, by decide, by decide⟩
  | obj kvs =>
    cases kvs with
    | nil => exact ⟨'\x7b', _, by rw [dumpsVal], by decide, by decide, by decide⟩
    | cons kv kvs' =>
      obtain ⟨k, v⟩ := kv
      exact ⟨'\x7b', _, by rw [dumpsVal], by decide, by decide, by decide⟩

theorem skipWs_dumpsVal (d : Nat) (v : Json) (l : List Char) :
    skipWs (dumpsVal d v ++ l) = dumpsVal d v ++ l := by
  obtain ⟨c, t, he, h1, -, -⟩ := dumpsVal_head d v
  rw [he, List.cons_append, skipWs_cons_neg h1]

theorem parseValue_ws {s1 s2 : List Char} (fuel : Nat) (h : skipWs s1 = skipWs s2) :
    parseValue fuel s1 = parseValue fuel s2 := by
  cases fuel with
  | zero => rfl
  | succ f =>
    rw [parseValue, parseValue, h]

theorem parseValue_default {fuel : Nat} {c : Char} {r : List Char}
    (hws : isJsonWs c = false) (h1 : c ≠ 'n') (h2 : c ≠ 't') (h3 : c ≠ 'f')
    (h4 : c ≠ '"') (h5 : c ≠ '[') (h6 : c ≠ '\x7b') :
    parseValue (fuel + 1) (c :: r) = parseNumberTok (c :: r) := by
  rw [parseValue, skipWs_cons_neg hws]
  show (if c = 'n' then
      match r with
      | 'u' :: 'l' :: 'l' :: r2 => some (Json.null, r2)
      | _ => Option.none
    else if c = 't' then
      match r with
      | 'r' :: 'u' :: 'e' :: r2 => some (Json.bool true, r2)
      | _ => Option.none
    else if c = 'f' then
      match r with
      | 'a' :: 'l' :: 's' :: 'e' :: r2 => some (Json.bool false, r2)
      | _ => Option.none
    else if c = '"' then
      match parseStringRest r with
      | some p => some (Json.str p.1, p.2)
      | Option.none => Option.none
    else if c = '[' then
      let r1 := skipWs r
      if r1.headD ' ' = ']' then some (Json.arr [], r1.tail)
      else
        match parseValue fuel r1 with
        | some (x, r2) =>
          (match parseArrTail fuel r2 with
           | some (xs, r3) => some (Json.arr (x :: xs), r3)
           | Option.none => Option.none)
        | Option.none => Option.none
    else if c = '\x7b' then
      let r1 := skipWs r
      if r1.headD ' ' = '\x7d' then some (Json.obj [], r1.tail)
      else
        match parseMember fuel r1 with
        | some (kv, r2) =>
          (match parseObjTail fuel r2 with
           | some (kvs, r3) => some (Json.obj (dictOfList (kv :: kvs)), r3)
           | Option.none => Option.none)
        | Option.none => Option.none
    else parseNumberTok (c :: r)) = parseNumberTok (c :: r)
  rw [if_neg h1, if_neg h2, if_neg h3, if_neg h4, if_neg h5, if_neg h6]

/-! ### Fuel bounds and dict lemmas -/

theorem jsizeF_pos (v : Json) : 1 ≤ jsizeF v := by
  cases v <;> rw [jsizeF] <;> omega

mutual
theorem jsizeF_le_length : ∀ (d : Nat) (v : Json), jsizeF v ≤ (dumpsVal d v).length + 1
  | d, .null => by simp [jsizeF, dumpsVal]
  | d, .bool true => by simp [jsizeF, dumpsVal]
  | d, .bool false => by simp [jsizeF, dumpsVal]
  | d, .num n => by
    rw [jsizeF]
    omega
  | d, .str s => by
    rw [jsizeF]
    omega
  | d, .arr [] => by simp [jsizeF, jsizeItems, dumpsVal]
  | d, .arr (x :: xs) => by
    have h1 := jsizeF_le_length (d + 2) x
    have h2 := jsizeItems_le_length (d + 2) xs
    rw [jsizeF, jsizeItems, dumpsVal]
    simp only [List.length_cons, List.length_append, indentStr,
      List.length_replicate, List.length_singleton]
    omega
  | d, .obj [] => by simp [jsizeF, jsizeMembers, dumpsVal]
  | d, .obj ((k, v) :: kvs) => by
    have h1 := jsizeF_le_length (d + 2) v
    have h2 := jsizeMembers_le_length (d + 2) kvs
    rw [jsizeF, jsizeMembers, dumpsVal]
    simp only [List.length_cons, List.length_append, indentStr,
      List.length_replicate, List.length_singleton]
    omega
termination_by structural d v => v

theorem jsizeItems_le_length :
    ∀ (d : Nat) (xs : List Json), jsizeItems xs ≤ (dumpsItemsTail d xs).length
  | d, [] => by simp [jsizeItems, dumpsItemsTail]
  | d, x :: xs => by
    have h1 := jsizeF_le_length d x
    have h2 := jsizeItems_le_length d xs
    rw [jsizeItems, dumpsItemsTail]
    simp only [List.length_cons, List.length_append, indentStr, List.length_replicate]
    omega
termination_by structural d xs => xs

theorem jsizeMembers_le_length :
    ∀ (d : Nat) (kvs : List (List Char × Json)),
      jsizeMembers kvs ≤ (dumpsMembersTail d kvs).length
  | d, [] => by simp [jsizeMembers, dumpsMembersTail]
  | d, (k, v) :: kvs => by
    have h1 := jsizeF_le_length d v
    have h2 := jsizeMembers_le_length d kvs
    rw [jsizeMembers, dumpsMembersTail]
    simp only [List.length_cons, List.length_append, indentStr, List.length_replicate]
    omega
termination_by structural d kvs => kvs
end

theorem dictOfList_aux :
    ∀ (ms acc : List (List Char × Json)),
      ((acc ++ ms).map Prod.fst).Nodup →
      ms.foldl (fun m kv => dictInsert m kv.1 kv.2) acc = acc ++ ms := by
  intro ms
  induction ms with
  | nil =>
    intro acc _
    simp
  | cons kv ms' ih =>
    intro acc h
    rw [List.foldl_cons]
    have hnotin : kv.1 ∉ acc.map Prod.fst := by
      rw [List.map_append] at h
      have hdis := (List.nodup_append.mp h).2.2
      intro hmem
      exact hdis hmem (List.mem_map.mpr ⟨kv, List.mem_cons_self _ _, rfl⟩)
    have hany : acc.any (fun p => p.1 = kv.1) = false := by
      rw [Bool.eq_false_iff]
      intro hc
      rw [List.any_eq_true] at hc
      obtain ⟨p, hp, he⟩ := hc
      rw [decide_eq_true_eq] at he
      exact hnotin (List.mem_map.mpr ⟨p, hp, he⟩)
    rw [show dictInsert acc kv.1 kv.2 = acc ++ [(kv.1, kv.2)] from by
      rw [dictInsert, hany]
      simp]
    have h' : (((acc ++ [(kv.1, kv.2)]) ++ ms').map Prod.fst).Nodup := by
      have : (acc ++ [(kv.1, kv.2)]) ++ ms' = acc ++ kv :: ms' := by
        simp
      rw [this]
      exact h
    rw [ih (acc ++ [(kv.1, kv.2)]) h']
    simp

theorem dictOfList_eq_self {ms : List (List Char × Json)}
    (h : (ms.map Prod.fst).Nodup) : dictOfList ms = ms := by
  have := dictOfList_aux ms [] (by simpa using h)
  simpa [dictOfList] using this

theorem numBoundary_itemsTail (d2 : Nat) (xs : List Json) (l : List Char) :
    numBoundary (dumpsItemsTail d2 xs ++ '\n' :: l) = true := by
  cases xs with
  | nil => rfl
  | cons x xs' => rfl

theorem numBoundary_membersTail (d2 : Nat) (kvs : List (List Char × Json))
    (l : List Char) :
    numBoundary (dumpsMembersTail d2 kvs ++ '\n' :: l) = true := by
  cases kvs with
  | nil => rfl
  | cons kv kvs' =>
    obtain ⟨k, v⟩ := kv
    rfl

/-! ### One-step unfolding views of the parser -/

theorem parseValue_quote (fuel : Nat) (R : List Char) :
    parseValue (fuel + 1) ('"' :: R) =
      (match parseStringRest R with
       | some p => some (Json.str p.1, p.2)
       | Option.none => Option.none) := rfl

theorem parseValue_bracket (fuel : Nat) (R : List Char) :
    parseValue (fuel + 1) ('[' :: R) =
      (if (skipWs R).headD ' ' = ']' then some (Json.arr [], (skipWs R).tail)
       else
        match parseValue fuel (skipWs R) with
        | some (x, r2) =>
          (match parseArrTail fuel r2 with
           | some (xs, r3) => some (Json.arr (x :: xs), r3)
           | Option.none => Option.none)
        | Option.none => Option.none) := rfl

theorem parseValue_brace (fuel : Nat) (R : List Char) :
    parseValue (fuel + 1) ('\x7b' :: R) =
      (if (skipWs R).headD ' ' = '\x7d' then some (Json.obj [], (skipWs R).tail)
       else
        match parseMember fuel (skipWs R) with
        | some (kv, r2) =>
          (match parseObjTail fuel r2 with
           | some (kvs, r3) => some (Json.obj (dictOfList (kv :: kvs)), r3)
           | Option.none => Option.none)
        | Option.none => Option.none) := rfl

theorem parseArrTail_succ (fuel : Nat) (s : List Char) :
    parseArrTail (fuel + 1) s =
      (if (skipWs s).headD ' ' = ']' then some ([], (skipWs s).tail)
       else if (skipWs s).headD ' ' = ',' then
        match parseValue fuel (skipWs s).tail with
        | some (x, r2) =>
          (match parseArrTail fuel r2 with
           | some (xs, r3) => some (x :: xs, r3)
           | Option.none => Option.none)
        | Option.none => Option.none
       else Option.none) := rfl

theorem parseObjTail_succ (fuel : Nat) (s : List Char) :
    parseObjTail (fuel + 1) s =
      (if (skipWs s).headD ' ' = '\x7d' then some ([], (skipWs s).tail)
       else if (skipWs s).headD ' ' = ',' then
        match parseMember fuel (skipWs s).tail with
        | some (kv, r2) =>
          (match parseObjTail fuel r2 with
           | some (kvs, r3) => some (kv :: kvs, r3)
           | Option.none => Option.none)
        | Option.none => Option.none
       else Option.none) := rfl

theorem parseMember_succ (fuel : Nat) (s : List Char) :
    parseMember (fuel + 1) s =
      (if (skipWs s).headD ' ' = '"' then
        match parseStringRest (skipWs s).tail with
        | some (k, r2) =>
          (if (skipWs r2).headD ' ' = ':' then
            match parseValue fuel (skipWs r2).tail with
            | some (v, r4) => some ((k, v), r4)
            | Option.none => Option.none
           else Option.none)
        | Option.none => Option.none
       else Option.none) := rfl

/-! ### The serializer/parser round trip -/

theorem dumpsMember_cons (d : Nat) (k : List Char) (v : Json) :
    dumpsMember d k v =
      '"' :: (escapeString k ++ ('"' :: ':' :: ' ' :: dumpsVal d v)) := rfl

theorem skipWs_dumpsMember (d : Nat) (k : List Char) (v : Json) (l : List Char) :
    skipWs (dumpsMember d k v ++ l) = dumpsMember d k v ++ l := by
  rw [dumpsMember_cons, List.cons_append, skipWs_cons_neg (by decide)]

theorem headD_dumpsMember (d : Nat) (k : List Char) (v : Json) (l : List Char) :
    (dumpsMember d k v ++ l).headD ' ' = '"' := by
  rw [dumpsMember_cons, List.cons_append, List.headD_cons]

theorem parseMember_ws {s1 s2 : List Char} (fuel : Nat) (h : skipWs s1 = skipWs s2) :
    parseMember fuel s1 = parseMember fuel s2 := by
  cases fuel with
  | zero => rfl
  | succ f => rw [parseMember_succ, parseMember_succ, h]

theorem intToDigits_ne_nil (n : Int) : intToDigits n ≠ [] := by
  unfold intToDigits
  split
  · simp
  · exact natToDigits_ne_nil _

theorem parse_dumps_round : ∀ fuel : Nat,
    (∀ (v : Json) (d : Nat) (rest : List Char), jsizeF v ≤ fuel →
      numBoundary rest = true → wfJ v = true →
      parseValue fuel (dumpsVal d v ++ rest) = some (v, rest)) ∧
    (∀ (xs : List Json) (d2 d : Nat) (rest : List Char),
      1 + jsizeItems xs ≤ fuel → wfItems xs = true →
      parseArrTail fuel
        (dumpsItemsTail d2 xs ++ '\n' :: (indentStr d ++ ']' :: rest)) =
        some (xs, rest)) ∧
    (∀ (kvs : List (List Char × Json)) (d2 d : Nat) (rest : List Char),
      1 + jsizeMembers kvs ≤ fuel → wfMembers kvs = true →
      parseObjTail fuel
        (dumpsMembersTail d2 kvs ++ '\n' :: (indentStr d ++ '\x7d' :: rest)) =
        some (kvs, rest)) ∧
    (∀ (k : List Char) (v : Json) (d : Nat) (rest : List Char),
      1 + jsizeF v ≤ fuel → numBoundary rest = true → wfJ v = true →
      parseMember fuel (dumpsMember d k v ++ rest) = some ((k, v), rest)) := by
  intro fuel
  induction fuel with
  | zero =>
    refine ⟨?_, ?_, ?_, ?_⟩
    · intro v d rest hf _ _
      have := jsizeF_pos v
      omega
    · intro xs d2 d rest hf _
      omega
    · intro kvs d2 d rest hf _
      omega
    · intro k v d rest hf _ _
      omega
  | succ fuel ih =>
    obtain ⟨ihV, ihA, ihO, ihM⟩ := ih
    refine ⟨?_, ?_, ?_, ?_⟩
    · -- values
      intro v d rest hf hb hwf
      cases v with
      | null =>
        rw [dumpsVal]
        rfl
      | bool b => cases b <;> (rw [dumpsVal]; rfl)
      | num n =>
        rw [dumpsVal]
        rcases hh : intToDigits n with _ | ⟨c, t⟩
        · exact absurd hh (intToDigits_ne_nil n)
        · have hc : c = '-' ∨ isDigitChar c = true := by
            unfold intToDigits at hh
            split at hh
            · left
              injection hh with h1 _
              exact h1.symm
            · right
              exact natToDigits_all_digits _ c
                (by rw [hh]; exact List.mem_cons_self _ _)
          rw [List.cons_append]
          have hdef : parseValue (fuel + 1) (c :: (t ++ rest)) =
              parseNumberTok (c :: (t ++ rest)) := by
            rcases hc with rfl | hd
            · exact parseValue_default (by decide) (by decide) (by decide)
                (by decide) (by decide) (by decide) (by decide)
            · obtain ⟨f1, -, -, f4, f5, f6, f7, f8, f9⟩ := digit_head_facts hd
              exact parseValue_default f1 f4 f5 f6 f7 f8 f9
          rw [hdef, ← List.cons_append, ← hh]
          exact parseNumberTok_intToDigits hb
      | str s =>
        rw [dumpsVal]
        simp only [List.cons_append, List.append_assoc, List.singleton_append]
        rw [parseValue_quote]
        simp only [parseStringRest_spec]
        rfl
      | arr xs =>
        cases xs with
        | nil =>
          rw [dumpsVal]
          rfl
        | cons x xs' =>
          rw [jsizeF, jsizeItems] at hf
          rw [wfJ, wfItems, Bool.and_eq_true] at hwf
          have hpx := jsizeF_pos x
          rw [dumpsVal]
          simp only [List.cons_append, List.append_assoc, List.singleton_append,
            List.nil_append]
          rw [parseValue_bracket, skipWs_nl_indent, skipWs_dumpsVal]
          obtain ⟨c0, t0, he0, -, hne0, -⟩ := dumpsVal_head (d + 2) x
          rw [he0, List.cons_append, List.headD_cons, if_neg hne0,
            ← List.cons_append, ← he0]
          have hv1 := ihV x (d + 2)
            (dumpsItemsTail (d + 2) xs' ++ '\n' :: (indentStr d ++ ']' :: rest))
            (by omega) (numBoundary_itemsTail _ _ _) hwf.1
          have ha1 := ihA xs' (d + 2) d rest (by omega) hwf.2
          simp only [hv1, ha1]
      | obj kvs =>
        cases kvs with
        | nil =>
          rw [dumpsVal]
          rfl
        | cons kv kvs' =>
          obtain ⟨k, v⟩ := kv
          rw [jsizeF, jsizeMembers] at hf
          rw [wfJ, Bool.and_eq_true] at hwf
          obtain ⟨hnodup, hwfm⟩ := hwf
          rw [wfMembers, Bool.and_eq_true] at hwfm
          have hpv := jsizeF_pos v
          rw [dumpsVal, ← dumpsMember_cons]
          simp only [List.cons_append, List.append_assoc, List.singleton_append,
            List.nil_append]
          rw [parseValue_brace, skipWs_nl_indent, skipWs_dumpsMember]
          rw [if_neg (by rw [headD_dumpsMember]; decide)]
          have hm1 := ihM k v (d + 2)
            (dumpsMembersTail (d + 2) kvs' ++ '\n' :: (indentStr d ++ '\x7d' :: rest))
            (by omega) (numBoundary_membersTail _ _ _) hwfm.1
          have ho1 := ihO kvs' (d + 2) d rest (by omega) hwfm.2
          simp only [hm1, ho1]
          rw [dictOfList_eq_self]
          rw [decide_eq_true_eq] at hnodup
          exact hnodup
    · -- array tails
      intro xs d2 d rest hf hwf
      cases xs with
      | nil =>
        rw [show dumpsItemsTail d2 [] ++ '\n' :: (indentStr d ++ ']' :: rest) =
          '\n' :: (indentStr d ++ ']' :: rest) from rfl]
        rw [parseArrTail_succ, skipWs_nl_indent, skipWs_cons_neg (by decide)]
        rw [if_pos (by rw [List.headD_cons])]
        rfl
      | cons x xs' =>
        rw [jsizeItems] at hf
        rw [wfItems, Bool.and_eq_true] at hwf
        have hpx := jsizeF_pos x
        rw [dumpsItemsTail]
        simp only [List.cons_append, List.append_assoc]
        rw [parseArrTail_succ, skipWs_cons_neg (by decide)]
        rw [if_neg (by rw [List.headD_cons]; decide),
          if_pos (by rw [List.headD_cons])]
        rw [show ((',' : Char) :: ('\n' :: (indentStr d2 ++
            (dumpsVal d2 x ++ (dumpsItemsTail d2 xs' ++
              '\n' :: (indentStr d ++ ']' :: rest)))))).tail =
          '\n' :: (indentStr d2 ++ (dumpsVal d2 x ++ (dumpsItemsTail d2 xs' ++
              '\n' :: (indentStr d ++ ']' :: rest)))) from rfl]
        have hws : parseValue fuel ('\n' :: (indentStr d2 ++ (dumpsVal d2 x ++
            (dumpsItemsTail d2 xs' ++ '\n' :: (indentStr d ++ ']' :: rest))))) =
            parseValue fuel (dumpsVal d2 x ++ (dumpsItemsTail d2 xs' ++
              '\n' :: (indentStr d ++ ']' :: rest))) :=
          parseValue_ws fuel (by rw [skipWs_nl_indent])
        rw [hws]
        have hv1 := ihV x d2
          (dumpsItemsTail d2 xs' ++ '\n' :: (indentStr d ++ ']' :: rest))
          (by omega) (numBoundary_itemsTail _ _ _) hwf.1
        have ha1 := ihA xs' d2 d rest (by omega) hwf.2
        simp only [hv1, ha1]
    · -- object tails
      intro kvs d2 d rest hf hwf
      cases kvs with
      | nil =>
        rw [show dumpsMembersTail d2 [] ++ '\n' :: (indentStr d ++ '\x7d' :: rest) =
          '\n' :: (indentStr d ++ '\x7d' :: rest) from rfl]
        rw [parseObjTail_succ, skipWs_nl_indent, skipWs_cons_neg (by decide)]
        rw [if_pos (by rw [List.headD_cons])]
        rfl
      | cons kv kvs' =>
        obtain ⟨k, v⟩ := kv
        rw [jsizeMembers] at hf
        rw [wfMembers, Bool.and_eq_true] at hwf
        have hpv := jsizeF_pos v
        rw [dumpsMembersTail, ← dumpsMember_cons]
        simp only [List.cons_append, List.append_assoc, List.nil_append]
        rw [parseObjTail_succ, skipWs_cons_neg (by decide)]
        rw [if_neg (by rw [List.headD_cons]; decide),
          if_pos (by rw [List.headD_cons])]
        simp only [List.tail_cons]
        have hm1 := ihM k v d2
          (dumpsMembersTail d2 kvs' ++ '\n' :: (indentStr d ++ '\x7d' :: rest))
          (by omega) (numBoundary_membersTail _ _ _) hwf.1
        have ho1 := ihO kvs' d2 d rest (by omega) hwf.2
        have hws : parseMember fuel ('\n' :: (indentStr d2 ++
            (dumpsMember d2 k v ++ (dumpsMembersTail d2 kvs' ++
              '\n' :: (indentStr d ++ '\x7d' :: rest))))) =
            parseMember fuel (dumpsMember d2 k v ++ (dumpsMembersTail d2 kvs' ++
              '\n' :: (indentStr d ++ '\x7d' :: rest))) :=
          parseMember_ws fuel
            (by rw [skipWs_nl_indent, skipWs_dumpsMember])
        rw [hws]
        simp only [hm1, ho1]
    · -- members
      intro k v d rest hf hb hwf
      have hpv := jsizeF_pos v
      rw [show dumpsMember d k v ++ rest =
        '"' :: (escapeString k ++ ('"' :: (':' :: ' ' :: (dumpsVal d v ++ rest))))
        from by
          rw [dumpsMember]
          simp [List.cons_append, List.append_assoc]]
      rw [parseMember_succ, skipWs_cons_neg (by decide)]
      rw [if_pos (by rw [List.headD_cons])]
      rw [show ((('"' : Char) :: (escapeString k ++
          ('"' :: (':' :: ' ' :: (dumpsVal d v ++ rest))))).tail) =
        escapeString k ++ ('"' :: (':' :: ' ' :: (dumpsVal d v ++ rest))) from rfl]
      rw [parseStringRest_spec]
      show (if (skipWs (':' :: ' ' :: (dumpsVal d v ++ rest))).headD ' ' = ':' then
          match parseValue fuel
            (skipWs (':' :: ' ' :: (dumpsVal d v ++ rest))).tail with
          | some (v, r4) => some ((k, v), r4)
          | Option.none => Option.none
        else Option.none) = some ((k, v), rest)
      rw [skipWs_cons_neg (by decide)]
      rw [if_pos (by rw [List.headD_cons])]
      have hws : parseValue fuel (' ' :: (dumpsVal d v ++ rest)) =
          parseValue fuel (dumpsVal d v ++ rest) :=
        parseValue_ws fuel (by rw [skipWs_cons_pos (by decide)])
      rw [show ((':' : Char) :: (' ' :: (dumpsVal d v ++ rest))).tail =
        ' ' :: (dumpsVal d v ++ rest) from rfl]
      rw [hws]
      have hv1 := ihV v d rest (by omega) hb hwf
      simp only [hv1]

/-- The serializer/parser round trip: `json.loads(json.dumps(v, indent=2))`
recovers `v` exactly, for every value in the image of Python's data model
(objects with distinct keys). -/
theorem loads_dumps {v : Json} (h : wfJ v = true) : loads (dumps v) = some v := by
  unfold loads dumps
  have hfuel : jsizeF v ≤ (dumpsVal 0 v).length + 1 := jsizeF_le_length 0 v
  have hmain := (parse_dumps_round ((dumpsVal 0 v).length + 1)).1 v 0 [] hfuel rfl h
  rw [List.append_nil] at hmain
  rw [hmain]
  rfl

/-! ### Claim theorems: JSON file I/O and item parsing -/

/-- C2: writing a JSON-representable value with `write_json` and reading
it back with `read_json` returns the value exactly, with all nesting
preserved. -/
theorem c2_write_read_roundtrip :
    ∀ (fs fs' : PyFS) (p : PyPath) (v : Json), wfJ v = true →
      write_json fs p v = some fs' → read_json fs' p = some v := by
  intro fs fs' p v hwf hw
  unfold write_json write_text at hw
  by_cases hc : p.dropLast = ([] : List (List Char)) ∨ p.dropLast ∈ fs.dirs
  · rw [if_pos hc] at hw
    injection hw with hw'
    subst hw'
    unfold read_json read_text
    rw [List.find?_cons_of_pos _ (by exact decide_eq_true rfl)]
    show loads (dumps v) = some v
    exact loads_dumps hwf
  · rw [if_neg hc] at hw
    cases hw

/-- C2 (witness): a concrete array survives the write/read round trip
through a file under the existing `data` directory. -/
theorem c2_witness :
    ∃ fs' : PyFS,
      write_json ⟨[["data".data]], []⟩ ["data".data, "items.json".data]
        (Json.arr [Json.num 1, Json.num 2]) = some fs' ∧
      read_json fs' ["data".data, "items.json".data] =
        some (Json.arr [Json.num 1, Json.num 2]) := by
  refine ⟨⟨[["data".data]], [(["data".data, "items.json".data],
    dumps (Json.arr [Json.num 1, Json.num 2]))]⟩, ?hw, ?_⟩
  case hw =>
    unfold write_json write_text
    rw [if_pos (by decide)]
  case _ =>
    apply c2_write_read_roundtrip ⟨[["data".data]], []⟩ _ _ _ (by rfl)
    unfold write_json write_text
    rw [if_pos (by decide)]

/-- C3 (counterexample): `write_json` to a path whose parent directory
does not exist fails (`Path.write_text` raises `FileNotFoundError`); no
directory is created. -/
theorem c3_counterexample :
    write_json ⟨[["data".data]], []⟩ ["missing".data, "x.json".data]
      (Json.arr [Json.num 1]) = Option.none := by
  unfold write_json write_text
  rw [if_neg (by decide)]

/-- C3 (amended): `write_json` serializes its argument to indented JSON
text at the given path, succeeding exactly when the path's parent
directory already exists, and it creates no directories (the module body
creates only `./data` at import time). -/
theorem c3_write_json_spec :
    ∀ (fs : PyFS) (p : PyPath) (v : Json),
      ((write_json fs p v).isSome ↔
        (p.dropLast = ([] : List (List Char)) ∨ p.dropLast ∈ fs.dirs)) ∧
      (∀ fs', write_json fs p v = some fs' →
        read_text fs' p = some (dumps v) ∧ fs'.dirs = fs.dirs) := by
  intro fs p v
  constructor
  · unfold write_json write_text
    by_cases hc : p.dropLast = ([] : List (List Char)) ∨ p.dropLast ∈ fs.dirs
    · rw [if_pos hc]
      simp [hc]
    · rw [if_neg hc]
      simp [hc]
  · intro fs' hw
    unfold write_json write_text at hw
    by_cases hc : p.dropLast = ([] : List (List Char)) ∨ p.dropLast ∈ fs.dirs
    · rw [if_pos hc] at hw
      injection hw with hw'
      subst hw'
      refine ⟨?_, rfl⟩
      unfold read_text
      rw [List.find?_cons_of_pos _ (by exact decide_eq_true rfl)]
      rfl
    · rw [if_neg hc] at hw
      cases hw

/-- C3 (witness): the success case of `write_json` at a concrete state,
path and value. -/
theorem c3_witness :
    read_text ⟨[["data".data]], [(["data".data, "x.json".data], dumps (Json.num 5))]⟩
        ["data".data, "x.json".data] = some (dumps (Json.num 5)) ∧
    (PyFS.mk [["data".data]]
        [(["data".data, "x.json".data], dumps (Json.num 5))]).dirs =
      (PyFS.mk [["data".data]] []).dirs :=
  (c3_write_json_spec ⟨[["data".data]], []⟩ ["data".data, "x.json".data]
    (Json.num 5)).2 _ (by
      unfold write_json write_text
      rw [if_pos (by decide)])

/-- C4: `parse_items_from_json` raises a `ValueError` exactly when the
payload is not valid JSON, or the parsed value is not a dict, or it lacks
an `'items'` key, or that key's value is not a list; on success it
returns the `'items'` list unchanged.  `"{}"` fails and
`'{"items":[1,2]}'` yields `[1, 2]`. -/
theorem c4_parse_items_spec :
    (∀ payload : List Char,
      ((∃ e, parse_items_from_json payload = .error e) ↔
        ¬ ∃ kvs items, loads payload = some (.obj kvs) ∧
            lookupKey kvs ("items".data) = some (.arr items)) ∧
      (∀ items, parse_items_from_json payload = .ok items ↔
        ∃ kvs, loads payload = some (.obj kvs) ∧
          lookupKey kvs ("items".data) = some (.arr items))) ∧
    (∃ e, parse_items_from_json ("\x7b\x7d".data) = .error e) ∧
    parse_items_from_json ("\x7b\"items\":[1,2]\x7d".data) =
      .ok [Json.num 1, Json.num 2] := by
  refine ⟨?_, ⟨_, rfl⟩, rfl⟩
  intro payload
  unfold parse_items_from_json
  rcases hl : loads payload with _ | v
  · constructor
    · simp
    · intro items
      simp
  · cases v with
    | obj kvs =>
      rcases hk : lookupKey kvs ("items".data) with _ | j
      · constructor
        · simp [hk]
        · intro items
          simp [hk]
      · cases j with
        | arr items' =>
          constructor
          · simp [hk]
          · intro items
            simp [hk]
        | null =>
          constructor
          · simp [hk]
          · intro items
            simp [hk]
        | bool b =>
          constructor
          · simp [hk]
          · intro items
            simp [hk]
        | num n =>
          constructor
          · simp [hk]
          · intro items
            simp [hk]
        | str s =>
          constructor
          · simp [hk]
          · intro items
            simp [hk]
        | obj kvs2 =>
          constructor
          · simp [hk]
          · intro items
            simp [hk]
    | null =>
      constructor
      · simp
      · intro items
        simp
    | bool b =>
      constructor
      · simp
      · intro items
        simp
    | num n =>
      constructor
      · simp
      · intro items
        simp
    | str s =>
      constructor
      · simp
      · intro items
        simp
    | arr xs =>
      constructor
      · simp
      · intro items
        simp

end PyWorkshop
